import Mathlib

/-!
# Verification of the table-config Schema Model

Shallow embedding of `src/utils/table_config.py` (class `TableConfig`) and of
the save path in `src/pages/1_Edit_Config.py`.

Python values that can appear in a parsed JSON document, in a pandas cell, or
as a configuration value are modelled by `PyVal`.  Python dicts are ordered
association lists (insertion order, as in Python 3.7+); floats are modelled
exactly as `mantissa * 10 ^ exponent` (the claims never depend on binary
float rounding); `PyVal.none` plays the role of both Python `None` and a
pandas missing value (`NaN`), which is what `pd.notna` distinguishes.
-/

inductive PyVal where
  | none
  | bool (b : Bool)
  | int (n : Int)
  | float (mant : Int) (exp10 : Int)
  | str (s : String)
  | list (xs : List PyVal)
  | dict (kvs : List (String × PyVal))

mutual

/-- Structural equality on `PyVal` (Python `==` restricted to this universe). -/
def pyBeq : PyVal → PyVal → Bool
  | .none, .none => true
  | .bool a, .bool b => a = b
  | .int a, .int b => a = b
  | .float a b, .float c d => a = c && b = d
  | .str a, .str b => a = b
  | .list xs, .list ys => pyBeqList xs ys
  | .dict xs, .dict ys => pyBeqDict xs ys
  | _, _ => false

def pyBeqList : List PyVal → List PyVal → Bool
  | [], [] => true
  | a :: as_, b :: bs => pyBeq a b && pyBeqList as_ bs
  | _, _ => false

def pyBeqDict : List (String × PyVal) → List (String × PyVal) → Bool
  | [], [] => true
  | (k, a) :: as_, (k', b) :: bs => k = k' && pyBeq a b && pyBeqDict as_ bs
  | _, _ => false

end

mutual

theorem pyBeq_iff : ∀ a b, pyBeq a b = true ↔ a = b
  | .none, .none => by simp [pyBeq]
  | .bool a, .bool b => by simp [pyBeq]
  | .int a, .int b => by simp [pyBeq]
  | .float a b, .float c d => by simp [pyBeq]
  | .str a, .str b => by simp [pyBeq]
  | .list xs, .list ys => by
      simp only [pyBeq, pyBeqList_iff xs ys, PyVal.list.injEq]
  | .dict xs, .dict ys => by
      simp only [pyBeq, pyBeqDict_iff xs ys, PyVal.dict.injEq]
  | .none, .bool _ | .none, .int _ | .none, .float _ _ | .none, .str _
  | .none, .list _ | .none, .dict _
  | .bool _, .none | .bool _, .int _ | .bool _, .float _ _ | .bool _, .str _
  | .bool _, .list _ | .bool _, .dict _
  | .int _, .none | .int _, .bool _ | .int _, .float _ _ | .int _, .str _
  | .int _, .list _ | .int _, .dict _
  | .float _ _, .none | .float _ _, .bool _ | .float _ _, .int _ | .float _ _, .str _
  | .float _ _, .list _ | .float _ _, .dict _
  | .str _, .none | .str _, .bool _ | .str _, .int _ | .str _, .float _ _
  | .str _, .list _ | .str _, .dict _
  | .list _, .none | .list _, .bool _ | .list _, .int _ | .list _, .float _ _
  | .list _, .str _ | .list _, .dict _
  | .dict _, .none | .dict _, .bool _ | .dict _, .int _ | .dict _, .float _ _
  | .dict _, .str _ | .dict _, .list _ => by simp [pyBeq]

theorem pyBeqList_iff : ∀ xs ys, pyBeqList xs ys = true ↔ xs = ys
  | [], [] => by simp [pyBeqList]
  | a :: as_, b :: bs => by
      simp [pyBeqList, pyBeq_iff a b, pyBeqList_iff as_ bs]
  | [], _ :: _ => by simp [pyBeqList]
  | _ :: _, [] => by simp [pyBeqList]

theorem pyBeqDict_iff : ∀ xs ys, pyBeqDict xs ys = true ↔ xs = ys
  | [], [] => by simp [pyBeqDict]
  | (k, a) :: as_, (k', b) :: bs => by
      simp [pyBeqDict, pyBeq_iff a b, pyBeqDict_iff as_ bs, and_assoc]
  | [], _ :: _ => by simp [pyBeqDict]
  | (_, _) :: _, [] => by simp [pyBeqDict]

end

instance : DecidableEq PyVal := fun a b => decidable_of_iff _ (pyBeq_iff a b)

/-- Dictionary lookup (`d.get(k)` / `d[k]`): first binding for the key. -/
def dictGet : List (String × PyVal) → String → Option PyVal
  | [], _ => Option.none
  | (k', v) :: t, k => if k = k' then some v else dictGet t k

/-- `k in d` for a Python dict. -/
def dictHas (d : List (String × PyVal)) (k : String) : Bool :=
  (dictGet d k).isSome

/-- `d[k] = v`: overwrite in place if the key exists (keeping its position,
as a Python dict does), else append at the end. -/
def dictSet : List (String × PyVal) → String → PyVal → List (String × PyVal)
  | [], k, v => [(k, v)]
  | (k', v') :: t, k, v =>
    if k = k' then (k', v) :: t else (k', v') :: dictSet t k v

/-- `del d[k]`: remove the binding for the key. -/
def dictDel : List (String × PyVal) → String → List (String × PyVal)
  | [], _ => []
  | (k', v') :: t, k => if k = k' then t else (k', v') :: dictDel t k

/-- A Python dict keyed by arbitrary values (`original_fields_map` is keyed by
whatever `metadata.get("target_name", field.get("name",""))` returns).  Only
dict fields are ever stored, so the payload is the field's entry list. -/
def pmapGet : List (PyVal × List (String × PyVal)) → PyVal → Option (List (String × PyVal))
  | [], _ => Option.none
  | (k', v) :: t, k => if k = k' then some v else pmapGet t k

def pmapSet : List (PyVal × List (String × PyVal)) → PyVal → List (String × PyVal) →
    List (PyVal × List (String × PyVal))
  | [], k, v => [(k, v)]
  | (k', v') :: t, k, v =>
    if k = k' then (k', v) :: t else (k', v') :: pmapSet t k v

/-- Python truthiness (`bool(v)`). -/
def pyTruthy : PyVal → Bool
  | .none => false
  | .bool b => b
  | .int n => n ≠ 0
  | .float m _ => m ≠ 0
  | .str s => s ≠ ""
  | .list xs => !xs.isEmpty
  | .dict kvs => !kvs.isEmpty

/-- `pd.notna(v)`: false exactly on a missing value (`None`/`NaN`). -/
def pdNotna : PyVal → Bool
  | .none => false
  | _ => true

/-- `isinstance(v, (bool, int, float))` (Python `bool` is a subclass of `int`). -/
def isBoolIntFloat : PyVal → Bool
  | .bool _ => true
  | .int _ => true
  | .float _ _ => true
  | _ => false

/-! ## Python string primitives, modelled character by character

`String.trim`, `String.splitOn` … in this Lean version are implemented on
byte positions and do not reduce in the kernel, so the Python string
operations used by the source are re-modelled here on `List Char`. -/

/-- The whitespace characters stripped by `str.strip()` (the common ASCII ones;
the exotic Unicode whitespace Python also strips never occurs here). -/
def isSpaceChar (c : Char) : Bool :=
  c = ' ' || c = '\t' || c = '\n' || c = '\r' || c = '\x0b' || c = '\x0c'

def dropLeadingSpace : List Char → List Char
  | [] => []
  | c :: t => if isSpaceChar c then dropLeadingSpace t else c :: t

/-- `s.strip()`. -/
def pyStrip (s : String) : String :=
  String.mk (((dropLeadingSpace s.data.reverse).reverse |> dropLeadingSpace))

/-- Characterwise `s.split(sep)` for a one-character separator (the source
only ever splits on `","`). -/
def splitChars (sep : Char) : List Char → List (List Char)
  | [] => [[]]
  | c :: t =>
    let r := splitChars sep t
    if c = sep then [] :: r
    else match r with
      | [] => [[c]]
      | h :: t' => (c :: h) :: t'

/-- `s.split(",")`. -/
def pySplitComma (s : String) : List String :=
  (splitChars ',' s.data).map String.mk

/-- `s.startswith(pre)`. -/
def strPrefixOf : List Char → List Char → Bool
  | [], _ => true
  | a :: as_, b :: bs => a = b && strPrefixOf as_ bs
  | _ :: _, [] => false

def pyStartsWith (s pre : String) : Bool :=
  strPrefixOf pre.data s.data

/-- ASCII `str.lower()` (the source only compares against `"true"`). -/
def asciiLowerChar (c : Char) : Char :=
  if 'A' ≤ c ∧ c ≤ 'Z' then Char.ofNat (c.toNat + 32) else c

def pyLower (s : String) : String :=
  String.mk (s.data.map asciiLowerChar)

/-- Does `pat` occur (as a contiguous substring) in `l`? -/
def hasSubstr (pat : List Char) : List Char → Bool
  | [] => strPrefixOf pat []
  | c :: t => strPrefixOf pat (c :: t) || hasSubstr pat t

def pyContains (s pat : String) : Bool := hasSubstr pat.data s.data

theorem strPrefixOf_length {pat l : List Char} (h : strPrefixOf pat l = true) :
    pat.length ≤ l.length := by
  induction pat generalizing l with
  | nil => simp
  | cons a as_ ih =>
    cases l with
    | nil => simp [strPrefixOf] at h
    | cons b bs =>
      simp only [strPrefixOf, Bool.and_eq_true, decide_eq_true_eq] at h
      simpa using Nat.succ_le_succ (ih h.2)

/-- Characterwise `s.replace(old, new)`: replace every non-overlapping
occurrence, left to right (Python semantics; `old` is never empty here).
After a match the `skip` counter consumes the rest of the matched
occurrence, keeping the recursion structural. -/
def replaceGo (pat rep : List Char) : Nat → List Char → List Char
  | _, [] => []
  | s + 1, _ :: t => replaceGo pat rep s t
  | 0, c :: t =>
    if strPrefixOf pat (c :: t) ∧ pat ≠ [] then
      rep ++ replaceGo pat rep (pat.length - 1) t
    else c :: replaceGo pat rep 0 t

def pyReplace (s pat rep : String) : String :=
  String.mk (replaceGo pat.data rep.data 0 s.data)

mutual

/-- `str(v)` as used by the comma-split fallback (`str(value).split(",")`).
Scalars match Python exactly; containers use a `repr`-style rendering (never
relevant to the claims, which only apply `str` to scalars). -/
def pyStr : PyVal → String
  | .none => "None"
  | .bool true => "True"
  | .bool false => "False"
  | .int n => toString n
  | .float m e => toString m ++ "e" ++ toString e
  | .str s => s
  | .list xs => "[" ++ pyStrList xs ++ "]"
  | .dict kvs => "\x7b" ++ pyStrDict kvs ++ "\x7d"

def pyStrList : List PyVal → String
  | [] => ""
  | [x] => pyStr x
  | x :: y :: t => pyStr x ++ ", " ++ pyStrList (y :: t)

def pyStrDict : List (String × PyVal) → String
  | [] => ""
  | [(k, v)] => "'" ++ k ++ "': " ++ pyStr v
  | (k, v) :: y :: t => "'" ++ k ++ "': " ++ pyStr v ++ ", " ++ pyStrDict (y :: t)

end

/-! ## `json.dumps`

Model of the standard library serializer with its default options
(`ensure_ascii=True`, separators `", "` / `": "`): `"` and `\` are escaped,
the control characters with short escapes use them, all other characters
outside printable ASCII are written as `\uXXXX` (astral code points as a
surrogate pair). -/

def hexDigChar (n : Nat) : Char :=
  if n < 10 then Char.ofNat (48 + n) else Char.ofNat (87 + n)

def toHex4 (n : Nat) : List Char :=
  [hexDigChar (n / 4096 % 16), hexDigChar (n / 256 % 16),
   hexDigChar (n / 16 % 16), hexDigChar (n % 16)]

def escChar (c : Char) : List Char :=
  if c = '"' then ['\\', '"']
  else if c = '\\' then ['\\', '\\']
  else if c = '\x08' then ['\\', 'b']
  else if c = '\x0c' then ['\\', 'f']
  else if c = '\n' then ['\\', 'n']
  else if c = '\r' then ['\\', 'r']
  else if c = '\t' then ['\\', 't']
  else if 0x20 ≤ c.toNat ∧ c.toNat ≤ 0x7e then [c]
  else if c.toNat < 0x10000 then '\\' :: 'u' :: toHex4 c.toNat
  else ('\\' :: 'u' :: toHex4 (0xd800 + (c.toNat - 0x10000) / 0x400)) ++
       ('\\' :: 'u' :: toHex4 (0xdc00 + (c.toNat - 0x10000) % 0x400))

def escString : List Char → List Char
  | [] => []
  | c :: t => escChar c ++ escString t

/-- A serialized JSON string literal, quotes included. -/
def jstrChars (s : String) : List Char := '"' :: (escString s.data ++ ['"'])

mutual

def dumpChars : PyVal → List Char
  | .none => "null".data
  | .bool true => "true".data
  | .bool false => "false".data
  | .int n => (toString n).data
  | .float m e => (toString m).data ++ 'e' :: (toString e).data
  | .str s => jstrChars s
  | .list xs => '[' :: (dumpElems xs ++ [']'])
  | .dict kvs => '{' :: (dumpMembers kvs ++ ['}'])

def dumpElems : List PyVal → List Char
  | [] => []
  | [x] => dumpChars x
  | x :: y :: t => dumpChars x ++ ',' :: ' ' :: dumpElems (y :: t)

def dumpMembers : List (String × PyVal) → List Char
  | [] => []
  | [(k, v)] => jstrChars k ++ ':' :: ' ' :: dumpChars v
  | (k, v) :: y :: t => jstrChars k ++ ':' :: ' ' :: dumpChars v ++ ',' :: ' ' :: dumpMembers (y :: t)

end

def jsonDumps (v : PyVal) : String := String.mk (dumpChars v)

/-! ## `json.loads`

A strict recursive-descent JSON parser over `List Char`, modelling
`json.loads` (Python's decoder): standard value grammar, `\uXXXX` escapes
with surrogate-pair recombination, rejection of raw control characters in
strings, of leading zeros, and of trailing garbage.  `parseVal` carries a
fuel argument only to satisfy the termination checker; `jsonLoads` always
supplies more fuel than the input can consume. -/

def isJsonWs (c : Char) : Bool :=
  c = ' ' || c = '\t' || c = '\n' || c = '\r'

def dropJsonWs : List Char → List Char
  | [] => []
  | c :: t => if isJsonWs c then dropJsonWs t else c :: t

def hexVal (c : Char) : Option Nat :=
  if '0' ≤ c ∧ c ≤ '9' then some (c.toNat - 48)
  else if 'a' ≤ c ∧ c ≤ 'f' then some (c.toNat - 87)
  else if 'A' ≤ c ∧ c ≤ 'F' then some (c.toNat - 55)
  else Option.none

def hex4 (a b c d : Char) : Option Nat :=
  match hexVal a, hexVal b, hexVal c, hexVal d with
  | some va, some vb, some vc, some vd => some (((va * 16 + vb) * 16 + vc) * 16 + vd)
  | _, _, _, _ => Option.none

/-- First pass of string lexing: decode the body of a JSON string literal
into UTF-16 code units (a `\uXXXX` escape contributes its raw value, a
literal or short-escaped character its code point), stopping at the closing
quote.  Raw control characters are rejected, as the strict decoder does. -/
def lexUnits : List Char → Option (List Nat × List Char)
  | [] => Option.none
  | c :: r =>
    if c = '"' then some ([], r)
    else if c = '\\' then
      match r with
      | [] => Option.none
      | e :: r2 =>
        if e = '"' then (lexUnits r2).map fun p => (0x22 :: p.1, p.2)
        else if e = '\\' then (lexUnits r2).map fun p => (0x5c :: p.1, p.2)
        else if e = '/' then (lexUnits r2).map fun p => (0x2f :: p.1, p.2)
        else if e = 'b' then (lexUnits r2).map fun p => (0x08 :: p.1, p.2)
        else if e = 'f' then (lexUnits r2).map fun p => (0x0c :: p.1, p.2)
        else if e = 'n' then (lexUnits r2).map fun p => (0x0a :: p.1, p.2)
        else if e = 'r' then (lexUnits r2).map fun p => (0x0d :: p.1, p.2)
        else if e = 't' then (lexUnits r2).map fun p => (0x09 :: p.1, p.2)
        else if e = 'u' then
          match r2 with
          | a :: b :: c2 :: d :: r3 =>
            match hex4 a b c2 d with
            | Option.none => Option.none
            | some n => (lexUnits r3).map fun p => (n :: p.1, p.2)
          | _ => Option.none
        else Option.none
    else if c.toNat < 0x20 then Option.none
    else (lexUnits r).map fun p => (c.toNat :: p.1, p.2)

/-- Second pass: recombine a high/low surrogate pair into one code point, as
the decoder does for consecutive `\uXXXX` escapes. -/
def combineUnits : List Nat → List Char
  | [] => []
  | n :: m :: t =>
    if 0xd800 ≤ n ∧ n ≤ 0xdbff then
      if 0xdc00 ≤ m ∧ m ≤ 0xdfff then
        Char.ofNat (0x10000 + (n - 0xd800) * 0x400 + (m - 0xdc00)) :: combineUnits t
      else Char.ofNat n :: combineUnits (m :: t)
    else Char.ofNat n :: combineUnits (m :: t)
  | [n] => [Char.ofNat n]

/-- Lex the body of a JSON string literal (input starts after the opening
quote); returns the decoded characters and the input after the closing
quote. -/
def lexString (l : List Char) : Option (List Char × List Char) :=
  (lexUnits l).map fun p => (combineUnits p.1, p.2)

def takeDigits : List Char → (List Char × List Char)
  | [] => ([], [])
  | c :: t =>
    if c.isDigit then
      let p := takeDigits t
      (c :: p.1, p.2)
    else ([], c :: t)

def digitsToNat (ds : List Char) : Nat :=
  ds.foldl (fun a c => a * 10 + (c.toNat - 48)) 0

def parseNumber (l : List Char) : Option (PyVal × List Char) :=
  let sgn : Int × List Char := match l with
    | '-' :: t => (-1, t)
    | _ => (1, l)
  let intPart : Option (List Char × List Char) := match sgn.2 with
    | '0' :: r => some (['0'], r)
    | c :: r =>
      if '1' ≤ c ∧ c ≤ '9' then
        let p := takeDigits r
        some (c :: p.1, p.2)
      else Option.none
    | [] => Option.none
  match intPart with
  | Option.none => Option.none
  | some (ids, r1) =>
    let fracPart : Option (List Char × List Char) := match r1 with
      | '.' :: r2 =>
        let p := takeDigits r2
        if p.1 = [] then Option.none else some p
      | _ => some ([], r1)
    match fracPart with
    | Option.none => Option.none
    | some (fds, r2) =>
      let expPart : Option Int × List Char := match r2 with
        | e :: rest =>
          if e = 'e' ∨ e = 'E' then
            let sgnd : Int × List Char := match rest with
              | '+' :: t => (1, t)
              | '-' :: t => (-1, t)
              | _ => (1, rest)
            let p := takeDigits sgnd.2
            if p.1 = [] then (Option.none, r2) else (some (sgnd.1 * digitsToNat p.1), p.2)
          else (Option.none, r2)
        | [] => (Option.none, r2)
      if fds = [] ∧ expPart.1 = Option.none then
        some (.int (sgn.1 * digitsToNat ids), r2)
      else
        some (.float (sgn.1 * digitsToNat (ids ++ fds)) ((expPart.1.getD 0) - fds.length),
              expPart.2)

mutual

def parseVal : Nat → List Char → Option (PyVal × List Char)
  | 0, _ => Option.none
  | n + 1, l =>
    match l with
    | [] => Option.none
    | c :: r =>
      if c = '"' then (lexString r).map fun p => (PyVal.str (String.mk p.1), p.2)
      else if c = '[' then
        match dropJsonWs r with
        | [] => Option.none
        | c2 :: r2 =>
          if c2 = ']' then some (.list [], r2)
          else (parseElems n (c2 :: r2)).map fun p => (PyVal.list p.1, p.2)
      else if c = '{' then
        match dropJsonWs r with
        | [] => Option.none
        | c2 :: r2 =>
          if c2 = '}' then some (.dict [], r2)
          else (parseMembers n (c2 :: r2)).map fun p =>
            (PyVal.dict (p.1.foldl (fun d kv => dictSet d kv.1 kv.2) []), p.2)
      else if strPrefixOf ['t', 'r', 'u', 'e'] l then some (.bool true, l.drop 4)
      else if strPrefixOf ['f', 'a', 'l', 's', 'e'] l then some (.bool false, l.drop 5)
      else if strPrefixOf ['n', 'u', 'l', 'l'] l then some (.none, l.drop 4)
      else parseNumber l

def parseElems : Nat → List Char → Option (List PyVal × List Char)
  | 0, _ => Option.none
  | n + 1, l =>
    match parseVal n l with
    | Option.none => Option.none
    | some (v, r) =>
      match dropJsonWs r with
      | [] => Option.none
      | c :: r2 =>
        if c = ',' then (parseElems n (dropJsonWs r2)).map fun p => (v :: p.1, p.2)
        else if c = ']' then some ([v], r2)
        else Option.none

def parseMembers : Nat → List Char → Option (List (String × PyVal) × List Char)
  | 0, _ => Option.none
  | n + 1, l =>
    match l with
    | [] => Option.none
    | c :: r =>
      if c = '"' then
        match lexString r with
        | some (k, r1) =>
          match dropJsonWs r1 with
          | ':' :: r2 =>
            match parseVal n (dropJsonWs r2) with
            | some (v, r3) =>
              match dropJsonWs r3 with
              | ',' :: r4 => (parseMembers n (dropJsonWs r4)).map fun p =>
                  ((String.mk k, v) :: p.1, p.2)
              | '}' :: r4 => some ([(String.mk k, v)], r4)
              | _ => Option.none
            | Option.none => Option.none
          | _ => Option.none
        | Option.none => Option.none
      else Option.none

end

def jsonLoads (s : String) : Option PyVal :=
  let l := dropJsonWs s.data
  match parseVal (l.length + 1) l with
  | some (v, r) => if dropJsonWs r = [] then some v else Option.none
  | Option.none => Option.none

/-! ## `TableConfig.parse_key_list` (src/utils/table_config.py, lines 46-68)

The configuration value fetched from the warehouse row is an arbitrary
`PyVal` (`self._config.get(key_name, "")`; a missing key yields `""`).  The
`try` body is modelled as an `Except`, the bare `except:` as the handler
selecting the comma-split fallback. -/

/-- `[k.strip() for k in parsed if k.strip()]` for a JSON-parsed value:
`k.strip()` raises `AttributeError` (here `.error ()`) on a non-string
element. -/
def stripFilterJson : List PyVal → Except Unit (List String)
  | [] => .ok []
  | .str s :: t =>
    (stripFilterJson t).map fun r => if pyStrip s ≠ "" then pyStrip s :: r else r
  | _ :: _ => .error ()

/-- `[k.strip() for k in str(value).split(",") if k.strip()]` — the comma-split
branch and also the bare-`except:` fallback (lines 65-66 and 68 are the same
expression). -/
def commaFallback (value : PyVal) : List String :=
  ((pySplitComma (pyStr value)).map pyStrip).filter (· ≠ "")

/-- The `try` body (lines 61-66).  A string value starting with `"["` goes
through `json.loads`, whose parse failure raises (`.error`); a successful
parse of such a string is always a JSON array, so the non-list case is
unreachable but modelled as the error it would raise when iterated. -/
def parseKeyListAttempt (value : PyVal) : Except Unit (List String) :=
  match value with
  | .str s =>
    if pyStartsWith s "[" then
      match jsonLoads s with
      | some (.list ks) => stripFilterJson ks
      | some _ => .error ()
      | Option.none => .error ()
    else .ok (commaFallback (.str s))
  | v => .ok (commaFallback v)

/-- `TableConfig.parse_key_list`, given the configuration value. -/
def parse_key_list (value : PyVal) : List String :=
  match parseKeyListAttempt value with
  | .ok l => l
  | .error _ => commaFallback value

/-! ## `TableConfig._parse_dataschema` (src/utils/table_config.py, lines 70-95)

Empty string → empty list; JSON object with a `fields` key → that value
(whatever it is, as in the source); any other successfully parsed JSON →
empty list; JSON parse failure → `ValueError("Invalid DataSchema string")`.
(A `None` stored in the DataSchema column takes the same `if not
dataschema_str` branch as `""`.) -/

def parse_dataschema (s : String) : Except String PyVal :=
  if s = "" then .ok (.list [])
  else
    match jsonLoads s with
    | Option.none => .error "Invalid DataSchema string"
    | some v =>
      match v with
      | .dict d =>
        match dictGet d "fields" with
        | some fs => .ok fs
        | Option.none => .ok (.list [])
      | _ => .ok (.list [])

/-! ## The grid (pandas DataFrame) model

A grid is an ordered list of rows, each an ordered mapping from column name
to cell value, together with the column list (for a frame built from a list
of dicts, the union of the rows' keys in first-seen order, as pandas
computes it).  A missing cell reads as `PyVal.none` (pandas `NaN`);
`"col" in row` for a pandas row tests the index, i.e. the frame's columns. -/

structure Row where
  cells : List (String × PyVal)

def rowGet (r : Row) (k : String) : PyVal :=
  (dictGet r.cells k).getD .none

def rowKeys (r : Row) : List String := r.cells.map (·.1)

structure DFrame where
  cols : List String
  rows : List Row

def colsUnion (rows : List Row) : List String :=
  rows.foldl (fun acc r => acc ++ (rowKeys r).filter (fun k => !acc.contains k)) []

def mkDFrame (rows : List Row) : DFrame := ⟨colsUnion rows, rows⟩

/-! ## `TableConfig.schema_to_dataframe` (src/utils/table_config.py, 97-167) -/

/-- The fixed eight-column header of the empty grid (line 116). -/
def emptyGridColumns : List String :=
  ["Source Name", "Target Name", "Data Type", "Nullable", "Is Primary Key",
   "Is SCD Join Key", "Is SCD Sequence Key", "Comment"]

/-- The four metadata keys with dedicated grid columns (line 159). -/
def reservedMetaKeys : List String :=
  ["comment", "source_name", "target_name", "is_primary_key"]

/-- `field.get("metadata", {})`, coerced to `{}` when not a dict
(lines 142-144 and 130-131). -/
def metaOf (d : List (String × PyVal)) : List (String × PyVal) :=
  match dictGet d "metadata" with
  | some (.dict m) => m
  | _ => []

/-- Code-point lexicographic `a <= b` on strings, as Python compares them. -/
def charListLe : List Char → List Char → Bool
  | [], _ => true
  | _ :: _, [] => false
  | a :: as_, b :: bs =>
    if a = b then charListLe as_ bs else decide (a.toNat < b.toNat)

def strLe (a b : String) : Bool := charListLe a.data b.data

/-- Stable insertion sort on strings (`sorted` normalizes the set iteration
order; the keys are distinct, so any lexicographic sort agrees with it). -/
def insertSorted (a : String) : List String → List String
  | [] => [a]
  | b :: t => if strLe a b then a :: b :: t else b :: insertSorted a t

def sortStrings : List String → List String
  | [] => []
  | a :: t => insertSorted a (sortStrings t)

/-- One step of the metadata-key collection (`all_metadata_keys.update`). -/
def metaKeysStep (acc : List String) (f : PyVal) : List String :=
  match f with
  | .dict d => acc ++ ((metaOf d).map (·.1)).filter (fun k => !acc.contains k)
  | _ => acc

/-- `sorted(all_metadata_keys)`: union of the metadata keys of all (dict)
fields, sorted lexicographically (Python `sorted` on a set of strings). -/
def allMetadataKeys (schema_fields : List PyVal) : List String :=
  sortStrings (schema_fields.foldl metaKeysStep [])

/-- `target_name in scd_join_keys_set`: a Python `in` on a set of strings is
equality-based, so only a string value can be a member. -/
def strInKeySet (v : PyVal) (keys : List String) : Bool :=
  match v with
  | .str s => keys.contains s
  | _ => false

/-- One grid row for a dict field (loop body, lines 135-165): cells in
insertion order, the synthesized `metadata.<key>` columns after the fixed
ones.  (`value if value != "" else ""` at line 163 is kept verbatim.) -/
def buildRow (metaCols scd_join_keys scd_sequence_keys : List String)
    (d : List (String × PyVal)) : Row :=
  let m := metaOf d
  let target_name := (dictGet m "target_name").getD (.str "")
  ⟨[("Data Type", (dictGet d "type").getD (.str "")),
    ("Nullable", (dictGet d "nullable").getD (.bool true)),
    ("Comment", (dictGet m "comment").getD (.str "")),
    ("Source Name", (dictGet m "source_name").getD (.str "")),
    ("Target Name", target_name),
    ("Is Primary Key", (dictGet m "is_primary_key").getD (.str "")),
    ("Is SCD Join Key", .bool (strInKeySet target_name scd_join_keys)),
    ("Is SCD Sequence Key", .bool (strInKeySet target_name scd_sequence_keys))] ++
   metaCols.map (fun k =>
     ("metadata." ++ k,
      let value := (dictGet m k).getD (.str "")
      if value = .str "" then .str "" else value))⟩

def schema_to_dataframe (schema_fields : List PyVal)
    (primary_keys scd_join_keys scd_sequence_keys : List String) : DFrame :=
  if schema_fields.isEmpty then ⟨emptyGridColumns, []⟩
  else
    -- line 120 builds `primary_keys_set` but never reads it
    let _primary_keys_set := primary_keys
    let metaCols := (allMetadataKeys schema_fields).filter
      (fun k => !reservedMetaKeys.contains k)
    mkDFrame (schema_fields.filterMap (fun f =>
      match f with
      | .dict d => some (buildRow metaCols scd_join_keys scd_sequence_keys d)
      | _ => Option.none))

/-! ## `TableConfig.dataframe_to_schema` (src/utils/table_config.py, 169-258) -/

/-- The key under which an original field is registered in
`original_fields_map` (lines 187-192): `metadata.get("target_name",
field.get("name", ""))`; a field whose `metadata` is present but not a dict
is skipped. -/
def fieldMapKey (d : List (String × PyVal)) : Option PyVal :=
  match dictGet d "metadata" with
  | some (.dict m) => some ((dictGet m "target_name").getD ((dictGet d "name").getD (.str "")))
  | some _ => Option.none
  | Option.none => some ((dictGet d "name").getD (.str ""))

def originalMapStep (acc : List (PyVal × List (String × PyVal))) (f : PyVal) :
    List (PyVal × List (String × PyVal)) :=
  match f with
  | .dict d =>
    match fieldMapKey d with
    | some k => pmapSet acc k d
    | Option.none => acc
  | _ => acc

def mkOriginalMap (originals : List PyVal) : List (PyVal × List (String × PyVal)) :=
  originals.foldl originalMapStep []

/-- Line 216: `bool(v) if not isinstance(v, str) else str(v).lower() == "true"`. -/
def coerceNullable : PyVal → Bool
  | .str s => pyLower s = "true"
  | v => pyTruthy v

/-- Lines 206-212: the field synthesized for an unmatched row. -/
def newField (field_name dtype : PyVal) : List (String × PyVal) :=
  [("name", field_name), ("type", dtype), ("nullable", .bool true), ("metadata", .dict [])]

/-- Lines 223-224. -/
def sourceNameStep (cols : List String) (r : Row) (m : List (String × PyVal)) :
    List (String × PyVal) :=
  let v := rowGet r "Source Name"
  if cols.contains "Source Name" ∧ pdNotna v ∧ pyTruthy v then dictSet m "source_name" v else m

/-- Lines 226-227. -/
def targetNameStep (cols : List String) (r : Row) (m : List (String × PyVal)) :
    List (String × PyVal) :=
  let v := rowGet r "Target Name"
  if cols.contains "Target Name" ∧ pdNotna v ∧ pyTruthy v then dictSet m "target_name" v else m

/-- Lines 229-234: write a truthy Comment cell, delete `comment` on an
empty/missing one. -/
def commentStep (cols : List String) (r : Row) (m : List (String × PyVal)) :
    List (String × PyVal) :=
  let v := rowGet r "Comment"
  if cols.contains "Comment" ∧ pdNotna v ∧ pyTruthy v then dictSet m "comment" v
  else if cols.contains "Comment" ∧ (¬ pdNotna v ∨ ¬ pyTruthy v) then
    if dictHas m "comment" then dictDel m "comment" else m
  else m

/-- Lines 236-237. -/
def isPkStep (cols : List String) (r : Row) (m : List (String × PyVal)) :
    List (String × PyVal) :=
  let v := rowGet r "Is Primary Key"
  if cols.contains "Is Primary Key" ∧ pdNotna v then
    dictSet m "is_primary_key" (.bool (pyTruthy v))
  else m

/-- Lines 240-246, one column: a non-null cell of a `metadata.<key>` column
is written back when it is a bool/number or a non-empty value. -/
def metaColStep1 (r : Row) (m : List (String × PyVal)) (col : String) :
    List (String × PyVal) :=
  if pyStartsWith col "metadata." ∧ pdNotna (rowGet r col) then
    let metadata_key := pyReplace col "metadata." ""
    let value := rowGet r col
    if value ≠ PyVal.none ∧ (isBoolIntFloat value ∨ value ≠ .str "") then
      dictSet m metadata_key value
    else m
  else m

/-- Lines 240-246: `for col in df.columns: ...`. -/
def metaColsStep (cols : List String) (r : Row) (m : List (String × PyVal)) :
    List (String × PyVal) :=
  cols.foldl (metaColStep1 r) m

/-- Loop body, lines 199-248: returns the rebuilt field and the row's
`field_name`.  `json.loads(json.dumps(field))` is a deep copy, i.e. the
identity on these pure values. -/
def buildField (omap : List (PyVal × List (String × PyVal))) (cols : List String)
    (r : Row) : PyVal × PyVal :=
  let field_name := rowGet r "Target Name"
  let d0 := match pmapGet omap field_name with
    | some orig => orig
    | Option.none => newField field_name (rowGet r "Data Type")
  let d1 := dictSet d0 "type" (rowGet r "Data Type")
  let d2 := dictSet d1 "nullable" (.bool (coerceNullable (rowGet r "Nullable")))
  let d3 := if dictHas d2 "metadata" then d2 else dictSet d2 "metadata" (.dict [])
  -- every field reaching this point has a dict `metadata` (a map entry has a
  -- dict or absent metadata; line 219 adds `{}` when absent), so the
  -- in-place mutations of `field["metadata"]` below always apply to a dict
  let m0 := match dictGet d3 "metadata" with | some (.dict m) => m | _ => []
  let m5 := metaColsStep cols r (isPkStep cols r (commentStep cols r
    (targetNameStep cols r (sourceNameStep cols r m0))))
  (.dict (dictSet d3 "metadata" (.dict m5)), field_name)

/-- Lines 199-256: iterate the grid rows, accumulating the rebuilt fields and
the three key lists (appending `field_name` for each truthy flag cell, in
row order). -/
def rowsLoop (omap : List (PyVal × List (String × PyVal))) (cols : List String) :
    List Row → (List PyVal × List PyVal × List PyVal × List PyVal)
  | [] => ([], [], [], [])
  | r :: rs =>
    let fb := buildField omap cols r
    let rest := rowsLoop omap cols rs
    (fb.1 :: rest.1,
     (if cols.contains "Is Primary Key" ∧ pyTruthy (rowGet r "Is Primary Key")
      then fb.2 :: rest.2.1 else rest.2.1),
     (if cols.contains "Is SCD Join Key" ∧ pyTruthy (rowGet r "Is SCD Join Key")
      then fb.2 :: rest.2.2.1 else rest.2.2.1),
     (if cols.contains "Is SCD Sequence Key" ∧ pyTruthy (rowGet r "Is SCD Sequence Key")
      then fb.2 :: rest.2.2.2 else rest.2.2.2))

/-- `TableConfig.dataframe_to_schema`: the document and the three key lists,
each key list serialized with `json.dumps` (line 258). -/
def dataframe_to_schema (df : DFrame) (original_schema_fields : List PyVal) :
    PyVal × String × String × String :=
  let omap := mkOriginalMap original_schema_fields
  let out := rowsLoop omap df.cols df.rows
  (.dict [("fields", .list out.1)],
   jsonDumps (.list out.2.1), jsonDumps (.list out.2.2.1), jsonDumps (.list out.2.2.2))

/-! ## The save path (src/pages/1_Edit_Config.py, lines 292-303)

The handler receives the `dataframe_to_schema` tuple — whose key-list
components are JSON **strings** — and builds
`",".join(primary_keys) if primary_keys else None` for each: `",".join`
applied to a string interleaves commas between its characters. -/

/-- `",".join(s)` for a string `s`. -/
def commaJoinChars (s : String) : String :=
  String.mk (List.intersperse ',' s.data)

/-- `",".join(keys) if keys else None` as stored into `config_updates`
(`None` becomes SQL `NULL` in `update_table_config`). -/
def saveConfigValue (s : String) : Option String :=
  if s = "" then Option.none else some (commaJoinChars s)

/-! # Shared lemmas -/

theorem dictGet_dictSet_self (m : List (String × PyVal)) (k : String) (v : PyVal) :
    dictGet (dictSet m k v) k = some v := by
  induction m with
  | nil => simp [dictSet, dictGet]
  | cons h t ih =>
    obtain ⟨k', v'⟩ := h
    by_cases hk : k = k' <;> simp [dictSet, dictGet, hk, ih]

theorem dictGet_dictSet_ne (m : List (String × PyVal)) (k k' : String) (v : PyVal)
    (h : k' ≠ k) : dictGet (dictSet m k v) k' = dictGet m k' := by
  induction m with
  | nil => simp [dictSet, dictGet, h]
  | cons hd t ih =>
    obtain ⟨a, b⟩ := hd
    by_cases hk : k = a
    · subst hk; simp [dictSet, dictGet, h]
    · by_cases hk' : k' = a <;> simp [dictSet, dictGet, hk, hk', ih]

theorem dictGet_dictDel_ne (m : List (String × PyVal)) (k k' : String)
    (h : k' ≠ k) : dictGet (dictDel m k) k' = dictGet m k' := by
  induction m with
  | nil => simp [dictDel]
  | cons hd t ih =>
    obtain ⟨a, b⟩ := hd
    by_cases hk : k = a
    · subst hk; simp [dictDel, dictGet, h]
    · by_cases hk' : k' = a <;> simp [dictDel, dictGet, hk, hk', ih]

theorem pmapGet_pmapSet_self (m : List (PyVal × List (String × PyVal))) (k : PyVal) (v) :
    pmapGet (pmapSet m k v) k = some v := by
  induction m with
  | nil => simp [pmapSet, pmapGet]
  | cons h t ih =>
    obtain ⟨k', v'⟩ := h
    by_cases hk : k = k' <;> simp [pmapSet, pmapGet, hk, ih]

theorem pmapGet_pmapSet_ne (m : List (PyVal × List (String × PyVal))) (k k' : PyVal) (v)
    (h : k' ≠ k) : pmapGet (pmapSet m k v) k' = pmapGet m k' := by
  induction m with
  | nil => simp [pmapSet, pmapGet, h]
  | cons hd t ih =>
    obtain ⟨a, b⟩ := hd
    by_cases hk : k = a
    · subst hk; simp [pmapSet, pmapGet, h]
    · by_cases hk' : k' = a <;> simp [pmapSet, pmapGet, hk, hk', ih]

theorem rowsLoop_fields (omap : List (PyVal × List (String × PyVal))) (cols : List String) :
    ∀ rs : List Row, (rowsLoop omap cols rs).1 = rs.map (fun r => (buildField omap cols r).1)
  | [] => rfl
  | r :: rs => by simp [rowsLoop, rowsLoop_fields omap cols rs]

theorem rowsLoop_pk (omap : List (PyVal × List (String × PyVal))) (cols : List String) :
    ∀ rs : List Row, (rowsLoop omap cols rs).2.1 = rs.filterMap (fun r =>
      if cols.contains "Is Primary Key" ∧ pyTruthy (rowGet r "Is Primary Key")
      then some (rowGet r "Target Name") else Option.none)
  | [] => rfl
  | r :: rs => by
    by_cases h : cols.contains "Is Primary Key" ∧ pyTruthy (rowGet r "Is Primary Key")
    · show (if cols.contains "Is Primary Key" ∧ pyTruthy (rowGet r "Is Primary Key")
            then (buildField omap cols r).2 :: (rowsLoop omap cols rs).2.1
            else (rowsLoop omap cols rs).2.1) = _
      rw [if_pos h, rowsLoop_pk omap cols rs, List.filterMap_cons, if_pos h]
      rfl
    · show (if cols.contains "Is Primary Key" ∧ pyTruthy (rowGet r "Is Primary Key")
            then (buildField omap cols r).2 :: (rowsLoop omap cols rs).2.1
            else (rowsLoop omap cols rs).2.1) = _
      rw [if_neg h, rowsLoop_pk omap cols rs, List.filterMap_cons, if_neg h]

theorem rowsLoop_sjk (omap : List (PyVal × List (String × PyVal))) (cols : List String) :
    ∀ rs : List Row, (rowsLoop omap cols rs).2.2.1 = rs.filterMap (fun r =>
      if cols.contains "Is SCD Join Key" ∧ pyTruthy (rowGet r "Is SCD Join Key")
      then some (rowGet r "Target Name") else Option.none)
  | [] => rfl
  | r :: rs => by
    by_cases h : cols.contains "Is SCD Join Key" ∧ pyTruthy (rowGet r "Is SCD Join Key")
    · show (if cols.contains "Is SCD Join Key" ∧ pyTruthy (rowGet r "Is SCD Join Key")
            then (buildField omap cols r).2 :: (rowsLoop omap cols rs).2.2.1
            else (rowsLoop omap cols rs).2.2.1) = _
      rw [if_pos h, rowsLoop_sjk omap cols rs, List.filterMap_cons, if_pos h]
      rfl
    · show (if cols.contains "Is SCD Join Key" ∧ pyTruthy (rowGet r "Is SCD Join Key")
            then (buildField omap cols r).2 :: (rowsLoop omap cols rs).2.2.1
            else (rowsLoop omap cols rs).2.2.1) = _
      rw [if_neg h, rowsLoop_sjk omap cols rs, List.filterMap_cons, if_neg h]

theorem rowsLoop_ssk (omap : List (PyVal × List (String × PyVal))) (cols : List String) :
    ∀ rs : List Row, (rowsLoop omap cols rs).2.2.2 = rs.filterMap (fun r =>
      if cols.contains "Is SCD Sequence Key" ∧ pyTruthy (rowGet r "Is SCD Sequence Key")
      then some (rowGet r "Target Name") else Option.none)
  | [] => rfl
  | r :: rs => by
    by_cases h : cols.contains "Is SCD Sequence Key" ∧ pyTruthy (rowGet r "Is SCD Sequence Key")
    · show (if cols.contains "Is SCD Sequence Key" ∧ pyTruthy (rowGet r "Is SCD Sequence Key")
            then (buildField omap cols r).2 :: (rowsLoop omap cols rs).2.2.2
            else (rowsLoop omap cols rs).2.2.2) = _
      rw [if_pos h, rowsLoop_ssk omap cols rs, List.filterMap_cons, if_pos h]
      rfl
    · show (if cols.contains "Is SCD Sequence Key" ∧ pyTruthy (rowGet r "Is SCD Sequence Key")
            then (buildField omap cols r).2 :: (rowsLoop omap cols rs).2.2.2
            else (rowsLoop omap cols rs).2.2.2) = _
      rw [if_neg h, rowsLoop_ssk omap cols rs, List.filterMap_cons, if_neg h]

/-- A full eight-column grid row as the editable UI frame produces it
(src/pages/1_Edit_Config.py, lines 268-278). -/
def uiRow (sn tn dt : String) (nullable pk sjk ssk : Bool) (comment : String) : Row :=
  ⟨[("Source Name", .str sn), ("Target Name", .str tn), ("Data Type", .str dt),
    ("Nullable", .bool nullable), ("Is Primary Key", .bool pk),
    ("Is SCD Join Key", .bool sjk), ("Is SCD Sequence Key", .bool ssk),
    ("Comment", .str comment)]⟩

/-! # Claims -/

/-- C3: the claim says the save path persists each of the three key lists
produced by `dataframe_to_schema` as a JSON array string written back
verbatim.  The code does not: `dataframe_to_schema` returns the lists
already serialized with `json.dumps` (strings), and the save handler then
applies `",".join(...)` to those **strings**, interleaving commas between
their characters.  On a grid with two primary-key rows `a`, `b` the
`PrimaryKeys` value written back is `[,",a,",,, ,",b,",]`, not
`["a", "b"]`.  (The function's own docstring promises
`(fields, primary_keys_list, ...)` — lists — and the handler's comment
expects the same, so the code contradicts its own documentation.) -/
theorem save_path_mangles_key_lists :
    (dataframe_to_schema
        (mkDFrame [uiRow "a" "a" "string" true true false false "",
                   uiRow "b" "b" "string" true true false false ""]) []).2.1
      = "[\"a\", \"b\"]" ∧
    saveConfigValue "[\"a\", \"b\"]" = some "[,\",a,\",,, ,\",b,\",]" ∧
    "[,\",a,\",,, ,\",b,\",]" ≠ "[\"a\", \"b\"]" :=
  ⟨rfl, rfl, by decide⟩

/-- C4: `_parse_dataschema` maps `""` to an empty field list, maps parsed
JSON whose top level is not an object containing `"fields"` to an empty
list, returns the `"fields"` value when present, and raises exactly when a
non-empty input fails to parse as JSON. -/
theorem parse_dataschema_spec (s : String) :
    (s = "" → parse_dataschema s = .ok (.list [])) ∧
    ((∃ e, parse_dataschema s = .error e) ↔ (s ≠ "" ∧ jsonLoads s = Option.none)) ∧
    (∀ d v, jsonLoads s = some (.dict d) → dictGet d "fields" = some v →
      parse_dataschema s = .ok v) ∧
    (∀ v, jsonLoads s = some v →
      (∀ d, v = .dict d → dictGet d "fields" = Option.none) →
      parse_dataschema s = .ok (.list [])) := by
  have hempty : jsonLoads "" = Option.none := rfl
  refine ⟨fun h => by simp [parse_dataschema, h], ⟨?_, ?_⟩, ?_, ?_⟩
  · rintro ⟨e, he⟩
    by_cases hs : s = ""
    · rw [hs] at he; simp [parse_dataschema] at he
    · refine ⟨hs, ?_⟩
      cases hj : jsonLoads s with
      | none => rfl
      | some v =>
        simp [parse_dataschema, hs, hj] at he
        cases v <;> simp at he
        rename_i d
        cases hd : dictGet d "fields" <;> simp [hd] at he
  · rintro ⟨hs, hj⟩
    exact ⟨"Invalid DataSchema string", by simp [parse_dataschema, hs, hj]⟩
  · intro d v hj hv
    have hs : s ≠ "" := by intro h; rw [h, hempty] at hj; cases hj
    simp [parse_dataschema, hs, hj, hv]
  · intro v hj hnf
    have hs : s ≠ "" := by intro h; rw [h, hempty] at hj; cases hj
    simp only [parse_dataschema, if_neg hs, hj]
    cases v <;> try rfl
    rename_i d
    simp [hnf d rfl]

/-- Witness for C4 at the concrete inputs of the spec's test list. -/
theorem parse_dataschema_spec_witness :
    parse_dataschema "" = .ok (.list []) ∧
    parse_dataschema "\x7b\"fields\": [true]\x7d" = .ok (.list [.bool true]) ∧
    parse_dataschema "\x7b\"nope\": 1\x7d" = .ok (.list []) ∧
    (∃ e, parse_dataschema "\x7bbad json" = .error e) := by
  refine ⟨(parse_dataschema_spec "").1 rfl, ?_, ?_, ?_⟩
  · exact (parse_dataschema_spec _).2.2.1 [("fields", .list [.bool true])] _ rfl rfl
  · exact (parse_dataschema_spec _).2.2.2 (.dict [("nope", .int 1)]) rfl
      (by intro d hd; cases hd; rfl)
  · exact ((parse_dataschema_spec _).2.1).mpr ⟨by decide, rfl⟩

/-- C5: `parse_key_list` never lets an exception out: whenever the `try`
body raises (modelled as `parseKeyListAttempt` returning `.error`), the
result is the comma-split fallback, and `[]` when that fallback is empty;
`parse_key_list("not json but [ish")` is the comma-split result (the input
does not even trigger the JSON branch). -/
theorem parse_key_list_never_raises (v : PyVal) :
    (∀ e, parseKeyListAttempt v = .error e → parse_key_list v = commaFallback v) ∧
    (∀ e, parseKeyListAttempt v = .error e → commaFallback v = [] → parse_key_list v = []) ∧
    parse_key_list (.str "not json but [ish") = commaFallback (.str "not json but [ish") ∧
    commaFallback (.str "not json but [ish") = ["not json but [ish"] := by
  refine ⟨?_, ?_, rfl, rfl⟩
  · intro e he; simp [parse_key_list, he]
  · intro e he hcf; simp [parse_key_list, he, hcf]

/-- Witness for C5: a malformed JSON-looking value degrades to comma-split. -/
theorem parse_key_list_never_raises_witness :
    parseKeyListAttempt (.str "[oops") = .error () ∧
    parse_key_list (.str "[oops") = commaFallback (.str "[oops") ∧
    commaFallback (.str "[oops") = ["[oops"] :=
  ⟨rfl, (parse_key_list_never_raises (.str "[oops")).1 () rfl, rfl⟩

/-- C6 counterexample: the claim keys the JSON branch on the **trimmed**
input starting with `[`, and claims `ParseKeyList(None) = []`.  The source
checks `value.startswith("[")` untrimmed, so `" [\"a\"]"` (trimmed it
starts with `[`, and is valid JSON for `["a"]`) is comma-split to
`["[\"a\"]"]` instead of the JSON result `["a"]`; and `str(None)` makes
`parse_key_list(None) = ["None"]`, not `[]`. -/
theorem parse_key_list_claim_counterexample :
    pyStartsWith (pyStrip " [\"a\"]") "[" = true ∧
    jsonLoads " [\"a\"]" = some (.list [.str "a"]) ∧
    stripFilterJson [.str "a"] = .ok ["a"] ∧
    parse_key_list (.str " [\"a\"]") = ["[\"a\"]"] ∧
    (["[\"a\"]"] : List String) ≠ ["a"] ∧
    parse_key_list .none = ["None"] ∧
    (["None"] : List String) ≠ ([] : List String) :=
  ⟨rfl, rfl, rfl, rfl, by decide, rfl, by decide⟩

/-- C6 (amended): the JSON-array parse is attempted exactly when the value
is a string that starts with `[` **untrimmed**; otherwise, or on any parse
error, the value is `str()`-ed and comma-split; in both branches elements
are stripped and empty ones dropped.  `parse_key_list("a, b ,c") =
["a","b","c"]`, `parse_key_list("") = []`, and `parse_key_list(None) =
["None"]` (the `str()` coercion of `None`). -/
theorem parse_key_list_branches (v : PyVal) :
    (∀ s, v = .str s → pyStartsWith s "[" = true →
      parse_key_list v = (match jsonLoads s with
        | some (.list ks) =>
          (match stripFilterJson ks with
           | .ok l => l
           | .error _ => commaFallback v)
        | _ => commaFallback v)) ∧
    (∀ s, v = .str s → pyStartsWith s "[" = false →
      parse_key_list v = ((pySplitComma s).map pyStrip).filter (· ≠ "")) ∧
    ((∀ s, v ≠ .str s) →
      parse_key_list v = ((pySplitComma (pyStr v)).map pyStrip).filter (· ≠ "")) ∧
    parse_key_list (.str "a, b ,c") = ["a", "b", "c"] ∧
    parse_key_list (.str "") = [] ∧
    parse_key_list .none = ["None"] := by
  refine ⟨?_, ?_, ?_, rfl, rfl, rfl⟩
  · rintro s rfl h
    cases hj : jsonLoads s with
    | none => simp [parse_key_list, parseKeyListAttempt, h, hj]
    | some w =>
      cases w <;> simp [parse_key_list, parseKeyListAttempt, h, hj]
  · rintro s rfl h
    simp [parse_key_list, parseKeyListAttempt, h, commaFallback, pyStr]
  · intro hns
    cases v with
    | str s => exact absurd rfl (hns s)
    | none => rfl
    | bool b => rfl
    | int n => rfl
    | float m e => rfl
    | list xs => rfl
    | dict kvs => rfl

/-- Witness for C6 at concrete inputs of each branch. -/
theorem parse_key_list_branches_witness :
    parse_key_list (.str "[\"a\", \"b\"]") = ["a", "b"] ∧
    parse_key_list (.str "x,y") = ["x", "y"] ∧
    parse_key_list (.int 7) = ["7"] := by
  refine ⟨?_, ?_, ?_⟩
  · exact ((parse_key_list_branches (.str "[\"a\", \"b\"]")).1 _ rfl rfl).trans rfl
  · exact ((parse_key_list_branches (.str "x,y")).2.1 _ rfl rfl).trans rfl
  · exact ((parse_key_list_branches (.int 7)).2.2.1
      (fun s hs => PyVal.noConfusion hs)).trans rfl

/-- C8: `dataframe_to_schema` builds each output key list by appending the
row's Target Name for every row whose flag cell is truthy (and whose flag
column exists), in grid row order, keeping duplicates; the serialized lists
are a pure function of the grid, so the same grid always yields the same
lists.  Concretely, rows `a`,`b` with `IsPrimaryKey=true` give
`primaryKeys = ["a","b"]` in that order, and duplicate names are kept. -/
theorem fromGrid_key_lists (df : DFrame) (originals : List PyVal) :
    ((dataframe_to_schema df originals).2.1
      = jsonDumps (.list (df.rows.filterMap (fun r =>
          if df.cols.contains "Is Primary Key" ∧ pyTruthy (rowGet r "Is Primary Key")
          then some (rowGet r "Target Name") else Option.none))) ∧
     (dataframe_to_schema df originals).2.2.1
      = jsonDumps (.list (df.rows.filterMap (fun r =>
          if df.cols.contains "Is SCD Join Key" ∧ pyTruthy (rowGet r "Is SCD Join Key")
          then some (rowGet r "Target Name") else Option.none))) ∧
     (dataframe_to_schema df originals).2.2.2
      = jsonDumps (.list (df.rows.filterMap (fun r =>
          if df.cols.contains "Is SCD Sequence Key" ∧ pyTruthy (rowGet r "Is SCD Sequence Key")
          then some (rowGet r "Target Name") else Option.none)))) ∧
    (dataframe_to_schema
        (mkDFrame [uiRow "a" "a" "string" true true false false "",
                   uiRow "b" "b" "string" true true false false ""]) []).2.1
      = jsonDumps (.list [.str "a", .str "b"]) ∧
    (dataframe_to_schema
        (mkDFrame [uiRow "a" "a" "string" true true false false "",
                   uiRow "a" "a" "string" true true false false ""]) []).2.1
      = jsonDumps (.list [.str "a", .str "a"]) := by
  refine ⟨⟨?_, ?_, ?_⟩, rfl, rfl⟩
  · show jsonDumps (.list (rowsLoop (mkOriginalMap originals) df.cols df.rows).2.1) = _
    rw [rowsLoop_pk]
  · show jsonDumps (.list (rowsLoop (mkOriginalMap originals) df.cols df.rows).2.2.1) = _
    rw [rowsLoop_sjk]
  · show jsonDumps (.list (rowsLoop (mkOriginalMap originals) df.cols df.rows).2.2.2) = _
    rw [rowsLoop_ssk]

/-- C2: in a grid row, `Is Primary Key` is read from
`metadata.is_primary_key` (default `""`), not from the `primary_keys`
argument (which the row construction never consults), while the two SCD
flags are membership tests of the metadata `target_name` in the respective
key lists; the field `{target_name:"id", metadata:{is_primary_key:true}}`
with `scdJoinKeys=["id"]` and an **empty** `primaryKeys` list yields
`IsPrimaryKey=true` and `IsScdJoinKey=true`. -/
theorem toGrid_key_flags (metaCols sjk ssk : List String) (d : List (String × PyVal)) :
    (rowGet (buildRow metaCols sjk ssk d) "Is Primary Key"
        = (dictGet (metaOf d) "is_primary_key").getD (.str "") ∧
     rowGet (buildRow metaCols sjk ssk d) "Is SCD Join Key"
        = .bool (strInKeySet ((dictGet (metaOf d) "target_name").getD (.str "")) sjk) ∧
     rowGet (buildRow metaCols sjk ssk d) "Is SCD Sequence Key"
        = .bool (strInKeySet ((dictGet (metaOf d) "target_name").getD (.str "")) ssk)) ∧
    (∀ (fields : List PyVal) (pk pk' : List String),
      (schema_to_dataframe fields pk sjk ssk).rows
        = (schema_to_dataframe fields pk' sjk ssk).rows) ∧
    ((schema_to_dataframe
        [.dict [("name", .str "id"),
                ("metadata", .dict [("target_name", .str "id"), ("is_primary_key", .bool true)])]]
        [] ["id"] []).rows.map
          (fun r => (rowGet r "Is Primary Key", rowGet r "Is SCD Join Key"))
      = [(.bool true, .bool true)]) := by
  refine ⟨⟨?_, ?_, ?_⟩, fun fields pk pk' => rfl, rfl⟩ <;>
    simp [buildRow, rowGet, dictGet]

theorem dictGet_eq_none_of_not_mem (m : List (String × PyVal)) (k : String)
    (h : k ∉ m.map Prod.fst) : dictGet m k = Option.none := by
  induction m with
  | nil => rfl
  | cons hd t ih =>
    obtain ⟨a, b⟩ := hd
    simp only [List.map_cons, List.mem_cons] at h
    push_neg at h
    simp [dictGet, h.1, ih h.2]

theorem dictGet_dictDel_self (m : List (String × PyVal)) (k : String)
    (hnd : (m.map Prod.fst).Nodup) : dictGet (dictDel m k) k = Option.none := by
  induction m with
  | nil => rfl
  | cons hd t ih =>
    obtain ⟨a, b⟩ := hd
    simp only [List.map_cons, List.nodup_cons] at hnd
    by_cases hk : k = a
    · subst hk; simp [dictDel, dictGet_eq_none_of_not_mem t k hnd.1]
    · simp [dictDel, dictGet, hk, ih hnd.2]

/-- C9: for a metadata dict (unique keys, as every Python dict has), the
Comment write-back step deletes `comment` when the cell is missing or
falsy (in particular the empty string) and writes the cell value when it
is truthy; in both cases no other metadata key changes.  End to end: the
matched original `{target_name:"t", comment:"old", extra:"v"}` whose grid
Comment cell is cleared to `""` comes back without `comment`, with `extra`
(and everything else except the reserved updates) untouched. -/
theorem comment_clear_on_empty (cols : List String) (r : Row) (m : List (String × PyVal))
    (hc : cols.contains "Comment" = true) (hnd : (m.map Prod.fst).Nodup) :
    ((¬ pdNotna (rowGet r "Comment") = true ∨ ¬ pyTruthy (rowGet r "Comment") = true) →
      dictGet (commentStep cols r m) "comment" = Option.none ∧
      ∀ k, k ≠ "comment" → dictGet (commentStep cols r m) k = dictGet m k) ∧
    (pdNotna (rowGet r "Comment") = true → pyTruthy (rowGet r "Comment") = true →
      dictGet (commentStep cols r m) "comment" = some (rowGet r "Comment") ∧
      ∀ k, k ≠ "comment" → dictGet (commentStep cols r m) k = dictGet m k) ∧
    (dataframe_to_schema
        ⟨["Data Type", "Nullable", "Comment", "Source Name", "Target Name",
          "Is Primary Key", "Is SCD Join Key", "Is SCD Sequence Key", "metadata.extra"],
         [⟨[("Data Type", .str ""), ("Nullable", .bool true), ("Comment", .str ""),
            ("Source Name", .str ""), ("Target Name", .str "t"), ("Is Primary Key", .str ""),
            ("Is SCD Join Key", .bool false), ("Is SCD Sequence Key", .bool false),
            ("metadata.extra", .str "v")]⟩]⟩
        [.dict [("name", .str "x"),
                ("metadata", .dict [("target_name", .str "t"), ("comment", .str "old"),
                                    ("extra", .str "v")])]]).1
      = .dict [("fields", .list [.dict [("name", .str "x"),
          ("metadata", .dict [("target_name", .str "t"), ("extra", .str "v"),
                              ("is_primary_key", .bool false)]),
          ("type", .str ""), ("nullable", .bool true)]])] := by
  have hc' : "Comment" ∈ cols := by simpa using hc
  have hfalsy : ∀ h : (¬ pdNotna (rowGet r "Comment") = true ∨ ¬ pyTruthy (rowGet r "Comment") = true),
      commentStep cols r m = (if dictHas m "comment" then dictDel m "comment" else m) := by
    intro h
    rcases h with h | h
    · have hna : pdNotna (rowGet r "Comment") = false := by
        cases hv : pdNotna (rowGet r "Comment")
        · rfl
        · exact absurd hv h
      have htr : pyTruthy (rowGet r "Comment") = false := by
        cases hv2 : rowGet r "Comment" <;> simp_all [pdNotna, pyTruthy]
      simp [commentStep, hna, htr, hc']
    · have htr : pyTruthy (rowGet r "Comment") = false := by
        cases hv : pyTruthy (rowGet r "Comment")
        · rfl
        · exact absurd hv h
      simp [commentStep, htr, hc']
  refine ⟨?_, ?_, rfl⟩
  · intro h
    rw [hfalsy h]
    constructor
    · by_cases hm : dictHas m "comment"
      · rw [if_pos hm]; exact dictGet_dictDel_self m "comment" hnd
      · rw [if_neg hm]
        unfold dictHas at hm
        cases hg : dictGet m "comment"
        · rfl
        · rw [hg] at hm; simp at hm
    · intro k hk
      by_cases hm : dictHas m "comment"
      · rw [if_pos hm]; exact dictGet_dictDel_ne m "comment" k hk
      · rw [if_neg hm]
  · intro h1 h2
    have : commentStep cols r m = dictSet m "comment" (rowGet r "Comment") := by
      have hc' : "Comment" ∈ cols := by simpa using hc
      simp [commentStep, hc', h1, h2]
    rw [this]
    exact ⟨dictGet_dictSet_self m "comment" _,
           fun k hk => dictGet_dictSet_ne m "comment" k _ hk⟩

/-- Witness for C9: a cleared Comment cell deletes `comment` and leaves the
other key `x` alone; a truthy one writes it. -/
theorem comment_clear_on_empty_witness :
    dictGet (commentStep ["Comment"] ⟨[("Comment", .str "")]⟩
      [("comment", .str "old"), ("x", .int 1)]) "comment" = Option.none ∧
    dictGet (commentStep ["Comment"] ⟨[("Comment", .str "")]⟩
      [("comment", .str "old"), ("x", .int 1)]) "x" = some (.int 1) ∧
    dictGet (commentStep ["Comment"] ⟨[("Comment", .str "new")]⟩
      [("comment", .str "old"), ("x", .int 1)]) "comment" = some (.str "new") := by
  have h1 := comment_clear_on_empty ["Comment"] ⟨[("Comment", .str "")]⟩
    [("comment", .str "old"), ("x", .int 1)] rfl (by decide)
  have h2 := comment_clear_on_empty ["Comment"] ⟨[("Comment", .str "new")]⟩
    [("comment", .str "old"), ("x", .int 1)] rfl (by decide)
  exact ⟨(h1.1 (Or.inr (by decide))).1,
         ((h1.1 (Or.inr (by decide))).2 "x" (by decide)).trans rfl,
         (h2.2.1 rfl rfl).1⟩

/-- C10: a `metadata.<key>` write-back for a cell that is missing (`None`/
`NaN`) or the empty string is a no-op: the field's metadata — in
particular the existing `metadata[key]` value carried over by the deep
copy — is left exactly as it was, and the key is never deleted (unlike
`comment`).  End to end: a matched field `{target_name:"t", comment:"c",
extra:"keep"}` whose grid cells `metadata.extra` and `Comment` are both
cleared to `""` keeps `extra = "keep"` while `comment` is deleted. -/
theorem metadata_empty_cell_preserved (r : Row) (m : List (String × PyVal)) (col : String)
    (h : rowGet r col = PyVal.none ∨ rowGet r col = .str "") :
    metaColStep1 r m col = m ∧
    (dataframe_to_schema
        ⟨["Data Type", "Nullable", "Comment", "Source Name", "Target Name",
          "Is Primary Key", "Is SCD Join Key", "Is SCD Sequence Key", "metadata.extra"],
         [⟨[("Data Type", .str ""), ("Nullable", .bool true), ("Comment", .str ""),
            ("Source Name", .str ""), ("Target Name", .str "t"), ("Is Primary Key", .str ""),
            ("Is SCD Join Key", .bool false), ("Is SCD Sequence Key", .bool false),
            ("metadata.extra", .str "")]⟩]⟩
        [.dict [("name", .str "x"),
                ("metadata", .dict [("target_name", .str "t"), ("comment", .str "c"),
                                    ("extra", .str "keep")])]]).1
      = .dict [("fields", .list [.dict [("name", .str "x"),
          ("metadata", .dict [("target_name", .str "t"), ("extra", .str "keep"),
                              ("is_primary_key", .bool false)]),
          ("type", .str ""), ("nullable", .bool true)]])] := by
  refine ⟨?_, rfl⟩
  rcases h with h | h <;> simp [metaColStep1, h, pdNotna, isBoolIntFloat]

/-- Witness for C10: an empty `metadata.extra` cell leaves the metadata
dict — and its `extra` entry — untouched. -/
theorem metadata_empty_cell_preserved_witness :
    metaColStep1 ⟨[("metadata.extra", .str "")]⟩ [("extra", .str "keep")] "metadata.extra"
      = [("extra", .str "keep")] ∧
    metaColStep1 ⟨[("metadata.extra", .none)]⟩ [("extra", .str "keep")] "metadata.extra"
      = [("extra", .str "keep")] :=
  ⟨(metadata_empty_cell_preserved ⟨[("metadata.extra", .str "")]⟩
      [("extra", .str "keep")] "metadata.extra" (Or.inr rfl)).1,
   (metadata_empty_cell_preserved ⟨[("metadata.extra", .none)]⟩
      [("extra", .str "keep")] "metadata.extra" (Or.inl rfl)).1⟩

/-! # Round-trip of `json.dumps` / `json.loads` on lists of strings (C7) -/

/-- The UTF-16 code units a character contributes to an `ensure_ascii`
escape (one unit below `0x10000`, a surrogate pair above). -/
def charUnits (c : Char) : List Nat :=
  if c.toNat < 0x10000 then [c.toNat]
  else [0xd800 + (c.toNat - 0x10000) / 0x400, 0xdc00 + (c.toNat - 0x10000) % 0x400]

def strUnits : List Char → List Nat
  | [] => []
  | c :: t => charUnits c ++ strUnits t

theorem char_toNat_valid (c : Char) :
    c.toNat < 0xd800 ∨ (0xdfff < c.toNat ∧ c.toNat < 0x110000) := by
  have h := c.valid
  simp [UInt32.isValidChar, Nat.isValidChar] at h
  exact h

theorem hexVal_hexDigChar (n : Nat) (h : n < 16) : hexVal (hexDigChar n) = some n := by
  interval_cases n <;> rfl

theorem hex4_toHex4 (n : Nat) (h : n < 65536) :
    hex4 (hexDigChar (n / 4096 % 16)) (hexDigChar (n / 256 % 16))
         (hexDigChar (n / 16 % 16)) (hexDigChar (n % 16)) = some n := by
  have h1 := hexVal_hexDigChar (n / 4096 % 16) (Nat.mod_lt _ (by norm_num))
  have h2 := hexVal_hexDigChar (n / 256 % 16) (Nat.mod_lt _ (by norm_num))
  have h3 := hexVal_hexDigChar (n / 16 % 16) (Nat.mod_lt _ (by norm_num))
  have h4 := hexVal_hexDigChar (n % 16) (Nat.mod_lt _ (by norm_num))
  simp only [hex4, h1, h2, h3, h4, Option.some.injEq]
  omega

theorem lexUnits_quote (rest : List Char) : lexUnits ('"' :: rest) = some ([], rest) := by
  rw [lexUnits.eq_def]; simp

theorem lexUnits_esc (e : Char) (u : Nat) (rest : List Char)
    (he : (e, u) ∈ [('"', 0x22), ('\\', 0x5c), ('/', 0x2f), ('b', 0x08), ('f', 0x0c),
           ('n', 0x0a), ('r', 0x0d), ('t', 0x09)]) :
    lexUnits ('\\' :: e :: rest) = (lexUnits rest).map fun p => (u :: p.1, p.2) := by
  rw [lexUnits.eq_def]
  fin_cases he <;> simp

theorem lexUnits_esc_u (a b c2 d : Char) (rest : List Char) (n : Nat)
    (h : hex4 a b c2 d = some n) :
    lexUnits ('\\' :: 'u' :: a :: b :: c2 :: d :: rest)
      = (lexUnits rest).map fun p => (n :: p.1, p.2) := by
  rw [lexUnits.eq_def]
  simp [h]

theorem lexUnits_lit (c : Char) (rest : List Char) (h1 : c ≠ '"') (h2 : c ≠ '\\')
    (h3 : ¬ c.toNat < 0x20) :
    lexUnits (c :: rest) = (lexUnits rest).map fun p => (c.toNat :: p.1, p.2) := by
  rw [lexUnits.eq_def]
  simp [h1, h2, h3]

theorem lexUnits_escString : ∀ (cs rest : List Char),
    lexUnits (escString cs ++ '"' :: rest) = some (strUnits cs, rest)
  | [], rest => by simp [escString, lexUnits_quote, strUnits]
  | c :: t, rest => by
    have ih := lexUnits_escString t rest
    have hvalid := char_toNat_valid c
    by_cases h1 : c = '"'
    · subst h1
      have hesc : escChar '"' = ['\\', '"'] := rfl
      simp only [escString, hesc, List.cons_append, List.nil_append]
      rw [lexUnits_esc '"' 0x22 _ (by decide), ih]
      simp [strUnits, charUnits]
    by_cases h2 : c = '\\'
    · subst h2
      have hesc : escChar '\\' = ['\\', '\\'] := rfl
      simp only [escString, hesc, List.cons_append, List.nil_append]
      rw [lexUnits_esc '\\' 0x5c _ (by decide), ih]
      simp [strUnits, charUnits]
    by_cases h3 : c = '\x08'
    · subst h3
      have hesc : escChar '\x08' = ['\\', 'b'] := rfl
      simp only [escString, hesc, List.cons_append, List.nil_append]
      rw [lexUnits_esc 'b' 0x08 _ (by decide), ih]
      simp [strUnits, charUnits]
    by_cases h4 : c = '\x0c'
    · subst h4
      have hesc : escChar '\x0c' = ['\\', 'f'] := rfl
      simp only [escString, hesc, List.cons_append, List.nil_append]
      rw [lexUnits_esc 'f' 0x0c _ (by decide), ih]
      simp [strUnits, charUnits]
    by_cases h5 : c = '\n'
    · subst h5
      have hesc : escChar '\n' = ['\\', 'n'] := rfl
      simp only [escString, hesc, List.cons_append, List.nil_append]
      rw [lexUnits_esc 'n' 0x0a _ (by decide), ih]
      simp [strUnits, charUnits]
    by_cases h6 : c = '\r'
    · subst h6
      have hesc : escChar '\r' = ['\\', 'r'] := rfl
      simp only [escString, hesc, List.cons_append, List.nil_append]
      rw [lexUnits_esc 'r' 0x0d _ (by decide), ih]
      simp [strUnits, charUnits]
    by_cases h7 : c = '\t'
    · subst h7
      have hesc : escChar '\t' = ['\\', 't'] := rfl
      simp only [escString, hesc, List.cons_append, List.nil_append]
      rw [lexUnits_esc 't' 0x09 _ (by decide), ih]
      simp [strUnits, charUnits]
    by_cases h8 : 0x20 ≤ c.toNat ∧ c.toNat ≤ 0x7e
    · have hlt : ¬ c.toNat < 0x20 := by omega
      have hbmp : c.toNat < 0x10000 := by omega
      simp only [escString, escChar, if_neg h1, if_neg h2, if_neg h3, if_neg h4,
                 if_neg h5, if_neg h6, if_neg h7, if_pos h8,
                 List.cons_append, List.nil_append]
      rw [lexUnits_lit c _ h1 h2 hlt, ih]
      simp [strUnits, charUnits, hbmp]
    by_cases h9 : c.toNat < 0x10000
    · simp only [escString, escChar, if_neg h1, if_neg h2, if_neg h3, if_neg h4,
                 if_neg h5, if_neg h6, if_neg h7, if_neg h8, if_pos h9, toHex4,
                 List.cons_append, List.nil_append]
      rw [lexUnits_esc_u _ _ _ _ _ _ (hex4_toHex4 c.toNat h9), ih]
      simp [strUnits, charUnits, h9]
    · have hhi : 0xd800 + (c.toNat - 0x10000) / 0x400 < 65536 := by omega
      have hlo : 0xdc00 + (c.toNat - 0x10000) % 0x400 < 65536 := by
        have := Nat.mod_lt (c.toNat - 0x10000) (show 0 < 0x400 by norm_num)
        omega
      simp only [escString, escChar, if_neg h1, if_neg h2, if_neg h3, if_neg h4,
                 if_neg h5, if_neg h6, if_neg h7, if_neg h8, if_neg h9, toHex4,
                 List.cons_append, List.nil_append, List.append_assoc]
      rw [lexUnits_esc_u _ _ _ _ _ _ (hex4_toHex4 _ hhi)]
      rw [lexUnits_esc_u _ _ _ _ _ _ (hex4_toHex4 _ hlo), ih]
      simp [strUnits, charUnits, h9]

theorem combineUnits_low (n : Nat) (us : List Nat) (h : ¬ (0xd800 ≤ n ∧ n ≤ 0xdbff)) :
    combineUnits (n :: us) = Char.ofNat n :: combineUnits us := by
  cases us with
  | nil => simp [combineUnits]
  | cons m t => simp [combineUnits, h]

theorem combineUnits_strUnits : ∀ cs : List Char, combineUnits (strUnits cs) = cs
  | [] => rfl
  | c :: t => by
    have hvalid := char_toNat_valid c
    by_cases h : c.toNat < 0x10000
    · have hsur : ¬ (0xd800 ≤ c.toNat ∧ c.toNat ≤ 0xdbff) := by omega
      simp only [strUnits, charUnits, if_pos h, List.cons_append, List.nil_append]
      rw [combineUnits_low _ _ hsur, Char.ofNat_toNat, combineUnits_strUnits t]
    · have hhi : 0xd800 ≤ 0xd800 + (c.toNat - 0x10000) / 0x400 ∧
                 0xd800 + (c.toNat - 0x10000) / 0x400 ≤ 0xdbff := by
        constructor
        · omega
        · have : (c.toNat - 0x10000) / 0x400 < 0x400 := by omega
          omega
      have hlo : 0xdc00 ≤ 0xdc00 + (c.toNat - 0x10000) % 0x400 ∧
                 0xdc00 + (c.toNat - 0x10000) % 0x400 ≤ 0xdfff := by
        have := Nat.mod_lt (c.toNat - 0x10000) (show 0 < 0x400 by norm_num)
        omega
      simp only [strUnits, charUnits, if_neg h, List.cons_append, List.nil_append]
      rw [combineUnits]
      rw [if_pos hhi, if_pos hlo]
      have harith : 0x10000 + (0xd800 + (c.toNat - 0x10000) / 0x400 - 0xd800) * 0x400 +
          (0xdc00 + (c.toNat - 0x10000) % 0x400 - 0xdc00) = c.toNat := by omega
      rw [harith, Char.ofNat_toNat, combineUnits_strUnits t]

theorem lexString_escString (cs rest : List Char) :
    lexString (escString cs ++ '"' :: rest) = some (cs, rest) := by
  simp [lexString, lexUnits_escString, combineUnits_strUnits]

theorem parseVal_jstr (n : Nat) (x : String) (rest : List Char) :
    parseVal (n + 1) (jstrChars x ++ rest) = some (.str x, rest) := by
  have hsh : jstrChars x ++ rest = '"' :: (escString x.data ++ ('"' :: rest)) := by
    simp [jstrChars]
  rw [hsh]
  simp [parseVal, lexString_escString]

theorem dumpElems_single (x : String) : dumpElems [.str x] = jstrChars x := by
  rw [dumpElems]; rfl

theorem dumpElems_cons2 (x : String) (y : PyVal) (t : List PyVal) :
    dumpElems (.str x :: y :: t) = jstrChars x ++ ',' :: ' ' :: dumpElems (y :: t) := by
  rw [dumpElems]; rfl

theorem dumpElems_str_head (y : String) (t : List PyVal) :
    ∃ tl, dumpElems (.str y :: t) = '"' :: tl := by
  cases t with
  | nil => exact ⟨escString y.data ++ ['"'], by rw [dumpElems_single]; rfl⟩
  | cons a u =>
    exact ⟨(escString y.data ++ ['"']) ++ ',' :: ' ' :: dumpElems (a :: u),
      by rw [dumpElems_cons2]; rfl⟩

theorem jstrChars_length (x : String) : 2 ≤ (jstrChars x).length := by
  simp [jstrChars]

theorem dumpElems_strs_length : ∀ L : List String,
    L.length ≤ (dumpElems (L.map .str)).length + 1
  | [] => by simp
  | [x] => by
    have hj := jstrChars_length x
    simp only [List.map_cons, List.map_nil, dumpElems_single, List.length_cons,
               List.length_nil]
    omega
  | x :: y :: t => by
    have ih := dumpElems_strs_length (y :: t)
    have hj := jstrChars_length x
    simp only [List.map_cons, dumpElems_cons2, List.length_append, List.length_cons] at *
    omega

theorem dropJsonWs_quote (tl : List Char) : dropJsonWs ('"' :: tl) = '"' :: tl := by
  simp [dropJsonWs, isJsonWs]

theorem parseElems_step (n : Nat) (l : List Char) :
    parseElems (n + 1) l = match parseVal n l with
      | Option.none => Option.none
      | some (v, r) =>
        match dropJsonWs r with
        | [] => Option.none
        | c :: r2 =>
          if c = ',' then Option.map (fun p => (v :: p.1, p.2)) (parseElems n (dropJsonWs r2))
          else if c = ']' then some ([v], r2)
          else Option.none := by
  rw [parseElems]

theorem parseElems_dumps : ∀ (L : List String) (n : Nat) (rest : List Char),
    L ≠ [] → L.length + 1 ≤ n →
    parseElems n (dumpElems (L.map .str) ++ ']' :: rest) = some (L.map .str, rest)
  | [], _, _, h, _ => absurd rfl h
  | [x], n, rest, _, hn => by
    have hn' : 2 ≤ n := by simpa using hn
    obtain ⟨n2, rfl⟩ : ∃ n2, n = n2 + 1 + 1 := ⟨n - 2, by omega⟩
    simp only [List.map_cons, List.map_nil, dumpElems_single]
    rw [parseElems_step, parseVal_jstr]
    simp [dropJsonWs, isJsonWs]
  | x :: y :: t, n, rest, _, hn => by
    have hn' : (x :: y :: t).length + 1 ≤ n := hn
    simp only [List.length_cons] at hn'
    obtain ⟨n2, rfl⟩ : ∃ n2, n = n2 + 1 + 1 := ⟨n - 2, by omega⟩
    have ih := parseElems_dumps (y :: t) (n2 + 1) rest (by simp)
      (by simp only [List.length_cons]; omega)
    simp only [List.map_cons] at ih ⊢
    rw [dumpElems_cons2]
    have hsh : (jstrChars x ++ ',' :: ' ' :: dumpElems (.str y :: t.map .str)) ++ ']' :: rest
        = jstrChars x ++ (',' :: ' ' :: (dumpElems (.str y :: t.map .str) ++ ']' :: rest)) := by
      simp
    rw [hsh, parseElems_step, parseVal_jstr]
    obtain ⟨tl, htl⟩ := dumpElems_str_head y (t.map .str)
    have hws : dropJsonWs (dumpElems (.str y :: t.map .str) ++ ']' :: rest)
        = dumpElems (.str y :: t.map .str) ++ ']' :: rest := by
      rw [htl]
      exact dropJsonWs_quote _
    simp [dropJsonWs, isJsonWs, hws, ih]

theorem stripFilterJson_trimmed : ∀ L : List String,
    (∀ k ∈ L, pyStrip k = k ∧ k ≠ "") → stripFilterJson (L.map .str) = .ok L
  | [] => fun _ => rfl
  | x :: t => fun h => by
    have hx := h x (by simp)
    have ih := stripFilterJson_trimmed t (fun k hk => h k (by simp [hk]))
    simp only [List.map_cons, stripFilterJson, ih, Except.map, hx.1]
    simp [hx.2]

theorem jsonDumps_strlist_data (x : String) (t : List String) :
    (jsonDumps (.list ((x :: t).map .str))).data
      = '[' :: (dumpElems (.str x :: t.map .str) ++ [']']) := by
  show (String.mk (dumpChars (.list ((x :: t).map .str)))).data = _
  rw [dumpChars]
  rfl

theorem parseVal_bracket (n : Nat) (r : List Char) (c2 : Char) (r2 : List Char)
    (h : dropJsonWs r = c2 :: r2) (hne : c2 ≠ ']') :
    parseVal (n + 1) ('[' :: r)
      = Option.map (fun p => (PyVal.list p.1, p.2)) (parseElems n (c2 :: r2)) := by
  rw [parseVal]
  simp [h, hne]

theorem jsonLoads_dumps_strlist (L : List String) :
    jsonLoads (jsonDumps (.list (L.map .str))) = some (.list (L.map .str)) := by
  cases L with
  | nil => rfl
  | cons x t =>
    obtain ⟨tl, htl⟩ := dumpElems_str_head x (t.map .str)
    have hdata := jsonDumps_strlist_data x t
    have hws0 : dropJsonWs ('[' :: (dumpElems (.str x :: t.map .str) ++ [']']))
        = '[' :: (dumpElems (.str x :: t.map .str) ++ [']']) := by
      simp [dropJsonWs, isJsonWs]
    have hshape : dumpElems (.str x :: t.map .str) ++ [']'] = '"' :: (tl ++ [']']) := by
      rw [htl]; rfl
    have hlen := dumpElems_strs_length (x :: t)
    simp only [List.map_cons] at hlen
    have hpv : parseVal ((dumpElems (.str x :: t.map .str) ++ [']']).length + 1 + 1)
        ('[' :: (dumpElems (.str x :: t.map .str) ++ [']']))
        = some (.list (.str x :: t.map .str), []) := by
      rw [parseVal_bracket _ _ '"' (tl ++ [']'])
        (by rw [hshape]; exact dropJsonWs_quote _) (by decide)]
      have hback : ('"' : Char) :: (tl ++ [']'])
          = dumpElems (.str x :: t.map .str) ++ ']' :: [] := by
        rw [htl]; rfl
      rw [hback]
      have hfe : (x :: t).length + 1
          ≤ (dumpElems (.str x :: t.map .str) ++ [']']).length + 1 := by
        simp only [List.length_cons] at hlen ⊢
        simp only [List.length_append, List.length_cons, List.length_nil]
        omega
      have hpe := parseElems_dumps (x :: t)
        ((dumpElems (.str x :: t.map .str) ++ [']']).length + 1) [] (by simp) hfe
      simp only [List.map_cons] at hpe
      rw [hpe]
      rfl
    show (match parseVal ((dropJsonWs (jsonDumps (.list ((x :: t).map .str))).data).length + 1)
            (dropJsonWs (jsonDumps (.list ((x :: t).map .str))).data) with
      | some (v, r) => if dropJsonWs r = [] then some v else Option.none
      | Option.none => Option.none) = _
    rw [hdata, hws0]
    simp only [List.length_cons]
    rw [hpv]
    simp [dropJsonWs]

/-- C7 counterexample: the claim promises the round-trip for every list
without empty or whitespace-only elements; `["a "]` satisfies that (its
element is non-empty and not whitespace-only), yet the round-trip strips
the trailing space: `ParseKeyList(JSON.stringify(["a "])) = ["a"] ≠
["a "]`. -/
theorem key_list_roundtrip_counterexample :
    ("a " ≠ "") ∧ pyStrip "a " = "a" ∧ ("a" : String) ≠ "" ∧
    jsonDumps (.list (["a "].map .str)) = "[\"a \"]" ∧
    parse_key_list (.str "[\"a \"]") = ["a"] ∧
    (["a"] : List String) ≠ ["a "] :=
  ⟨by decide, by decide, by decide, rfl, rfl, by decide⟩

/-- C7 (amended): for every list of strings whose elements are non-empty
and already whitespace-trimmed (no leading/trailing whitespace — the
parser strips each element, so an element with outer whitespace cannot
round-trip), `parse_key_list` applied to the `json.dumps` serialization of
the list returns the list itself. -/
theorem key_list_roundtrip (L : List String)
    (h : ∀ k ∈ L, pyStrip k = k ∧ k ≠ "") :
    parse_key_list (.str (jsonDumps (.list (L.map .str)))) = L := by
  cases L with
  | nil => rfl
  | cons x t =>
    have hload := jsonLoads_dumps_strlist (x :: t)
    have hstart : pyStartsWith (jsonDumps (.list ((x :: t).map .str))) "[" = true := by
      show strPrefixOf "[".data (jsonDumps (.list ((x :: t).map .str))).data = true
      rw [jsonDumps_strlist_data x t]
      show strPrefixOf ['['] ('[' :: _) = true
      simp [strPrefixOf]
    have hsf := stripFilterJson_trimmed (x :: t) h
    simp only [List.map_cons] at hload hsf hstart ⊢
    simp [parse_key_list, parseKeyListAttempt, hstart, hload, hsf]

/-- Witness for C7 at `L = ["a", "b"]`. -/
theorem key_list_roundtrip_witness :
    (∀ k ∈ ["a", "b"], pyStrip k = k ∧ k ≠ "") ∧
    parse_key_list (.str (jsonDumps (.list (["a", "b"].map .str)))) = ["a", "b"] :=
  ⟨by decide, key_list_roundtrip ["a", "b"] (by decide)⟩

/-! # Infrastructure for the metadata pass-through claim (C1) -/

theorem strPrefixOf_self_append : ∀ (l x : List Char), strPrefixOf l (l ++ x) = true
  | [], x => by simp [strPrefixOf]
  | a :: t, x => by simp [strPrefixOf, strPrefixOf_self_append t x]

theorem replaceGo_skip (pat rep : List Char) :
    ∀ (l : List Char) (s : Nat), replaceGo pat rep s l = replaceGo pat rep 0 (l.drop s)
  | [], s => by cases s <;> rfl
  | c :: t, 0 => by rfl
  | c :: t, s + 1 => by
    show replaceGo pat rep s t = _
    rw [replaceGo_skip pat rep t s]
    rfl

theorem replaceGo_no_occur (pat rep : List Char) (hne : pat ≠ []) :
    ∀ l : List Char, hasSubstr pat l = false → replaceGo pat rep 0 l = l
  | [], _ => rfl
  | c :: t, h => by
    have h' : strPrefixOf pat (c :: t) = false ∧ hasSubstr pat t = false := by
      simpa [hasSubstr] using h
    show (if strPrefixOf pat (c :: t) ∧ pat ≠ [] then
            rep ++ replaceGo pat rep (pat.length - 1) t
          else c :: replaceGo pat rep 0 t) = c :: t
    rw [if_neg (by simp [h'.1])]
    rw [replaceGo_no_occur pat rep hne t h'.2]

theorem pyReplace_strip_prefix (k : String) (h : pyContains k "metadata." = false) :
    pyReplace ("metadata." ++ k) "metadata." "" = k := by
  show String.mk (replaceGo "metadata.".data [] 0 ("metadata." ++ k).data) = k
  rw [String.data_append]
  show String.mk (replaceGo "metadata.".data [] 0
    ('m' :: ("etadata.".data ++ k.data))) = k
  show String.mk (if strPrefixOf "metadata.".data ('m' :: ("etadata.".data ++ k.data)) ∧
      "metadata.".data ≠ [] then
        [] ++ replaceGo "metadata.".data [] ("metadata.".data.length - 1)
          ("etadata.".data ++ k.data)
      else 'm' :: replaceGo "metadata.".data [] 0 ("etadata.".data ++ k.data)) = k
  rw [if_pos ⟨strPrefixOf_self_append "metadata.".data k.data, by decide⟩]
  rw [replaceGo_skip]
  have hdrop : ("etadata.".data ++ k.data).drop ("metadata.".data.length - 1) = k.data := by
    show ("etadata.".data ++ k.data).drop "etadata.".data.length = k.data
    exact List.drop_left _ _
  rw [hdrop, List.nil_append, replaceGo_no_occur _ _ (by decide) _ h]

theorem mem_insertSorted (a x : String) : ∀ l : List String,
    (x ∈ insertSorted a l ↔ x = a ∨ x ∈ l)
  | [] => by simp [insertSorted]
  | b :: t => by
    unfold insertSorted
    split
    · simp
    · simp [mem_insertSorted a x t]
      tauto

theorem mem_sortStrings (x : String) : ∀ l : List String, (x ∈ sortStrings l ↔ x ∈ l)
  | [] => Iff.rfl
  | a :: t => by simp [sortStrings, mem_insertSorted, mem_sortStrings x t]

theorem str_append_left_cancel {p a b : String} (h : p ++ a = p ++ b) : a = b := by
  have hd : (p ++ a).data = (p ++ b).data := congrArg String.data h
  rw [String.data_append, String.data_append] at hd
  have hab := List.append_cancel_left hd
  calc a = String.mk a.data := rfl
    _ = String.mk b.data := by rw [hab]
    _ = b := rfl

theorem metaPrefix_ne (x b : String) (hb : b.data.head? ≠ some 'm') :
    ("metadata." ++ x) ≠ b := by
  intro h
  apply hb
  rw [← h, String.data_append]
  rfl

theorem dictGet_prefixed_map (f : String → PyVal) (k : String) :
    ∀ ks : List String, k ∈ ks →
      dictGet (ks.map (fun a => ("metadata." ++ a, f a))) ("metadata." ++ k) = some (f k)
  | [], hmem => by cases hmem
  | a :: t, hmem => by
    by_cases hak : ("metadata." ++ k) = ("metadata." ++ a)
    · have hka : k = a := str_append_left_cancel hak
      subst hka
      simp [dictGet]
    · have hka : k ≠ a := fun he => hak (by rw [he])
      have hmem' : k ∈ t := by
        rcases List.mem_cons.mp hmem with h | h
        · exact absurd h hka
        · exact h
      simp only [List.map_cons, dictGet, if_neg hak]
      exact dictGet_prefixed_map f k t hmem'

theorem ite_empty_collapse (v : PyVal) : (if v = .str "" then PyVal.str "" else v) = v := by
  split
  · simp_all
  · rfl

theorem rowGet_buildRow_tn (metaCols sjk ssk : List String) (d : List (String × PyVal)) :
    rowGet (buildRow metaCols sjk ssk d) "Target Name"
      = (dictGet (metaOf d) "target_name").getD (.str "") := by
  simp [buildRow, rowGet, dictGet]

theorem rowGet_buildRow_base (metaCols sjk ssk : List String) (d : List (String × PyVal)) :
    rowGet (buildRow metaCols sjk ssk d) "Data Type"
      = (dictGet d "type").getD (.str "") ∧
    rowGet (buildRow metaCols sjk ssk d) "Nullable"
      = (dictGet d "nullable").getD (.bool true) ∧
    rowGet (buildRow metaCols sjk ssk d) "Comment"
      = (dictGet (metaOf d) "comment").getD (.str "") ∧
    rowGet (buildRow metaCols sjk ssk d) "Source Name"
      = (dictGet (metaOf d) "source_name").getD (.str "") := by
  refine ⟨?_, ?_, ?_, ?_⟩ <;> simp [buildRow, rowGet, dictGet]

theorem rowGet_buildRow_meta (metaCols sjk ssk : List String) (d : List (String × PyVal))
    (k : String) (hmem : k ∈ metaCols) :
    rowGet (buildRow metaCols sjk ssk d) ("metadata." ++ k)
      = (dictGet (metaOf d) k).getD (.str "") := by
  have h1 := metaPrefix_ne k "Data Type" (by decide)
  have h2 := metaPrefix_ne k "Nullable" (by decide)
  have h3 := metaPrefix_ne k "Comment" (by decide)
  have h4 := metaPrefix_ne k "Source Name" (by decide)
  have h5 := metaPrefix_ne k "Target Name" (by decide)
  have h6 := metaPrefix_ne k "Is Primary Key" (by decide)
  have h7 := metaPrefix_ne k "Is SCD Join Key" (by decide)
  have h8 := metaPrefix_ne k "Is SCD Sequence Key" (by decide)
  unfold rowGet buildRow
  simp only [List.append_eq, List.cons_append, List.nil_append, dictGet,
             if_neg h1, if_neg h2, if_neg h3, if_neg h4, if_neg h5, if_neg h6,
             if_neg h7, if_neg h8]
  rw [dictGet_prefixed_map _ k metaCols hmem]
  simp [ite_empty_collapse]

theorem rowKeys_buildRow (metaCols sjk ssk : List String) (d : List (String × PyVal)) :
    rowKeys (buildRow metaCols sjk ssk d)
      = ["Data Type", "Nullable", "Comment", "Source Name", "Target Name",
         "Is Primary Key", "Is SCD Join Key", "Is SCD Sequence Key"]
        ++ metaCols.map (fun k => "metadata." ++ k) := by
  simp [rowKeys, buildRow]

theorem colsUnion_fold_absorb : ∀ (rows : List Row) (acc : List String),
    (∀ r ∈ rows, ∀ k ∈ rowKeys r, k ∈ acc) →
    rows.foldl (fun acc r => acc ++ (rowKeys r).filter (fun k => !acc.contains k)) acc = acc
  | [], acc, _ => rfl
  | r :: rows, acc, h => by
    have hfil : (rowKeys r).filter (fun k => !acc.contains k) = [] := by
      apply List.filter_eq_nil_iff.mpr
      intro k hk
      simp [h r (by simp) k hk]
    show (r :: rows).foldl (fun acc r => acc ++ (rowKeys r).filter (fun k => !acc.contains k)) acc
      = acc
    rw [List.foldl_cons, hfil, List.append_nil]
    exact colsUnion_fold_absorb rows acc (fun r' hr' => h r' (by simp [hr']))

theorem colsUnion_const (K : List String) : ∀ rows : List Row,
    (∀ r ∈ rows, rowKeys r = K) → rows ≠ [] → colsUnion rows = K
  | [], _, hne => absurd rfl hne
  | r :: rows, h, _ => by
    unfold colsUnion
    rw [List.foldl_cons]
    have h0 : ([] : List String) ++ (rowKeys r).filter (fun k => !([] : List String).contains k)
        = K := by
      rw [h r (by simp)]
      simp
    rw [h0]
    apply colsUnion_fold_absorb
    intro r' hr' k hk
    rw [h r' (by simp [hr'])] at hk
    exact hk

/-- Extractor used to state target-name distinctness: the key under which a
field would be registered in `original_fields_map`. -/
def fieldTn : PyVal → Option PyVal
  | .dict d => fieldMapKey d
  | _ => Option.none

theorem pmapGet_foldl_frame : ∀ (fs : List PyVal) (acc) (tn : PyVal),
    (∀ f ∈ fs, fieldTn f ≠ some tn) →
    pmapGet (fs.foldl originalMapStep acc) tn = pmapGet acc tn
  | [], _, _, _ => rfl
  | f :: fs, acc, tn, h => by
    rw [List.foldl_cons]
    rw [pmapGet_foldl_frame fs _ tn (fun f' hf' => h f' (by simp [hf']))]
    cases f with
    | dict d =>
      have hne := h (.dict d) (by simp)
      cases hk : fieldMapKey d with
      | none => simp [originalMapStep, hk]
      | some key =>
        have hkey : tn ≠ key := by
          intro he
          apply hne
          simp [fieldTn, hk, he]
        simp only [originalMapStep, hk]
        exact pmapGet_pmapSet_ne acc key tn d hkey
    | none => rfl
    | bool b => rfl
    | int n => rfl
    | float m e => rfl
    | str s => rfl
    | list xs => rfl

theorem pmapGet_mkOriginalMap_found : ∀ (fs : List PyVal) (acc) (i : Nat)
    (d : List (String × PyVal)) (tn : PyVal),
    fs[i]? = some (.dict d) → fieldMapKey d = some tn →
    (∀ j, j ≠ i → ∀ dj, fs[j]? = some (.dict dj) → fieldMapKey dj ≠ some tn) →
    pmapGet (fs.foldl originalMapStep acc) tn = some d
  | [], _, i, _, _, hi, _, _ => by simp at hi
  | f :: fs, acc, 0, d, tn, hi, htn, hothers => by
    simp only [List.getElem?_cons_zero, Option.some.injEq] at hi
    subst hi
    rw [List.foldl_cons]
    have hrest : ∀ f' ∈ fs, fieldTn f' ≠ some tn := by
      intro f' hf'
      obtain ⟨j, hj⟩ := List.mem_iff_getElem?.mp hf'
      cases f' with
      | dict dj =>
        simpa [fieldTn] using hothers (j + 1) (by omega) dj (by simpa using hj)
      | none => simp [fieldTn]
      | bool b => simp [fieldTn]
      | int n => simp [fieldTn]
      | float m e => simp [fieldTn]
      | str s => simp [fieldTn]
      | list xs => simp [fieldTn]
    rw [pmapGet_foldl_frame fs _ tn hrest]
    simp only [originalMapStep, htn]
    exact pmapGet_pmapSet_self acc tn d
  | f :: fs, acc, i + 1, d, tn, hi, htn, hothers => by
    rw [List.foldl_cons]
    exact pmapGet_mkOriginalMap_found fs (originalMapStep acc f) i d tn
      (by simpa using hi) htn
      (fun j hj dj hdj => hothers (j + 1) (by omega) dj (by simpa using hdj))

theorem mem_metaKeysStep_fold : ∀ (fs : List PyVal) (acc : List String) (k : String),
    k ∈ fs.foldl metaKeysStep acc →
    k ∈ acc ∨ ∃ d, (PyVal.dict d) ∈ fs ∧ k ∈ (metaOf d).map Prod.fst
  | [], _, _, h => Or.inl h
  | f :: fs, acc, k, h => by
    rw [List.foldl_cons] at h
    rcases mem_metaKeysStep_fold fs (metaKeysStep acc f) k h with h1 | ⟨d, hd, hk⟩
    · cases f with
      | dict d =>
        simp only [metaKeysStep, List.mem_append, List.mem_filter] at h1
        rcases h1 with h1 | ⟨h1, _⟩
        · exact Or.inl h1
        · exact Or.inr ⟨d, by simp, h1⟩
      | none => exact Or.inl h1
      | bool b => exact Or.inl h1
      | int n => exact Or.inl h1
      | float m e => exact Or.inl h1
      | str s => exact Or.inl h1
      | list xs => exact Or.inl h1
    · exact Or.inr ⟨d, by simp [hd], hk⟩

theorem mem_allMetadataKeys (F : List PyVal) (k : String)
    (h : k ∈ allMetadataKeys F) :
    ∃ d, (PyVal.dict d) ∈ F ∧ k ∈ (metaOf d).map Prod.fst := by
  unfold allMetadataKeys at h
  rw [mem_sortStrings] at h
  rcases mem_metaKeysStep_fold F [] k h with h1 | h2
  · cases h1
  · exact h2

theorem sourceNameStep_ne (cols : List String) (r : Row) (m : List (String × PyVal))
    (k : String) (h : k ≠ "source_name") :
    dictGet (sourceNameStep cols r m) k = dictGet m k := by
  simp only [sourceNameStep]
  split
  · exact dictGet_dictSet_ne m _ k _ h
  · rfl

theorem targetNameStep_ne (cols : List String) (r : Row) (m : List (String × PyVal))
    (k : String) (h : k ≠ "target_name") :
    dictGet (targetNameStep cols r m) k = dictGet m k := by
  simp only [targetNameStep]
  split
  · exact dictGet_dictSet_ne m _ k _ h
  · rfl

theorem commentStep_ne (cols : List String) (r : Row) (m : List (String × PyVal))
    (k : String) (h : k ≠ "comment") :
    dictGet (commentStep cols r m) k = dictGet m k := by
  simp only [commentStep]
  split
  · exact dictGet_dictSet_ne m _ k _ h
  · split
    · split
      · exact dictGet_dictDel_ne m _ k h
      · rfl
    · rfl

theorem isPkStep_ne (cols : List String) (r : Row) (m : List (String × PyVal))
    (k : String) (h : k ≠ "is_primary_key") :
    dictGet (isPkStep cols r m) k = dictGet m k := by
  simp only [isPkStep]
  split
  · exact dictGet_dictSet_ne m _ k _ h
  · rfl

theorem metaColsStep_pres (r : Row) (k : String) (target : Option PyVal) :
    ∀ (cols : List String) (m : List (String × PyVal)),
    (∀ col ∈ cols, pyStartsWith col "metadata." = true →
        pyReplace col "metadata." "" = k →
        rowGet r col = target.getD (.str "")) →
    dictGet m k = target →
    dictGet (metaColsStep cols r m) k = target
  | [], _, _, hm => hm
  | col :: cols, m, hcol, hm => by
    apply metaColsStep_pres r k target cols (metaColStep1 r m col)
      (fun c hc => hcol c (by simp [hc]))
    simp only [metaColStep1]
    split
    case isTrue hcond =>
      split
      case isTrue hval =>
        by_cases hkey : pyReplace col "metadata." "" = k
        · rw [hkey, dictGet_dictSet_self]
          have hrv := hcol col (by simp) hcond.1 hkey
          cases target with
          | none =>
            rw [hrv] at hval
            simp [isBoolIntFloat] at hval
          | some v => rw [hrv]; rfl
        · rw [dictGet_dictSet_ne m _ k _ (Ne.symm hkey)]
          exact hm
      case isFalse => exact hm
    case isFalse => exact hm

theorem buildField_meta_preserved
    (omap : List (PyVal × List (String × PyVal))) (cols metaCols sjk ssk : List String)
    (d m : List (String × PyVal)) (tn : PyVal) (k : String)
    (hcols : cols = ["Data Type", "Nullable", "Comment", "Source Name", "Target Name",
        "Is Primary Key", "Is SCD Join Key", "Is SCD Sequence Key"]
        ++ metaCols.map (fun a => "metadata." ++ a))
    (hm : dictGet d "metadata" = some (.dict m))
    (htn : dictGet m "target_name" = some tn)
    (hmap : pmapGet omap tn = some d)
    (hsub : ∀ k' ∈ metaCols, pyContains k' "metadata." = false)
    (hk1 : k ≠ "comment") (hk2 : k ≠ "source_name") (hk3 : k ≠ "target_name")
    (hk4 : k ≠ "is_primary_key") :
    ∃ d' m',
      (buildField omap cols (buildRow metaCols sjk ssk d)).1 = .dict d' ∧
      dictGet d' "metadata" = some (.dict m') ∧
      dictGet m' k = dictGet m k := by
  have hmeta : metaOf d = m := by unfold metaOf; rw [hm]
  have hfn : rowGet (buildRow metaCols sjk ssk d) "Target Name" = tn := by
    rw [rowGet_buildRow_tn, hmeta, htn]
    rfl
  have hd2meta : dictGet (dictSet (dictSet d "type"
      (rowGet (buildRow metaCols sjk ssk d) "Data Type")) "nullable"
      (.bool (coerceNullable (rowGet (buildRow metaCols sjk ssk d) "Nullable"))))
      "metadata" = some (.dict m) := by
    rw [dictGet_dictSet_ne _ _ _ _ (by decide), dictGet_dictSet_ne _ _ _ _ (by decide), hm]
  have hhas : dictHas (dictSet (dictSet d "type"
      (rowGet (buildRow metaCols sjk ssk d) "Data Type")) "nullable"
      (.bool (coerceNullable (rowGet (buildRow metaCols sjk ssk d) "Nullable"))))
      "metadata" = true := by
    unfold dictHas
    rw [hd2meta]
    rfl
  have hm4 : dictGet (isPkStep cols (buildRow metaCols sjk ssk d)
      (commentStep cols (buildRow metaCols sjk ssk d)
        (targetNameStep cols (buildRow metaCols sjk ssk d)
          (sourceNameStep cols (buildRow metaCols sjk ssk d) m)))) k = dictGet m k := by
    rw [isPkStep_ne _ _ _ _ hk4, commentStep_ne _ _ _ _ hk1,
        targetNameStep_ne _ _ _ _ hk3, sourceNameStep_ne _ _ _ _ hk2]
  have hm5 : dictGet (metaColsStep cols (buildRow metaCols sjk ssk d)
      (isPkStep cols (buildRow metaCols sjk ssk d)
        (commentStep cols (buildRow metaCols sjk ssk d)
          (targetNameStep cols (buildRow metaCols sjk ssk d)
            (sourceNameStep cols (buildRow metaCols sjk ssk d) m))))) k = dictGet m k := by
    apply metaColsStep_pres _ k (dictGet m k) cols _ ?_ hm4
    intro col hcolmem hstart hrep
    rw [hcols] at hcolmem
    rcases List.mem_append.mp hcolmem with hbase | hmapmem
    · have hf : pyStartsWith col "metadata." = false := by
        fin_cases hbase <;> decide
      rw [hf] at hstart
      cases hstart
    · obtain ⟨k', hk'mem, hk'eq⟩ := List.mem_map.mp hmapmem
      subst hk'eq
      have hstrip : pyReplace ("metadata." ++ k') "metadata." "" = k' :=
        pyReplace_strip_prefix k' (hsub k' hk'mem)
      have hkk : k' = k := by rw [hstrip] at hrep; exact hrep
      subst hkk
      rw [rowGet_buildRow_meta metaCols sjk ssk d k' hk'mem, hmeta]
  have hbf : (buildField omap cols (buildRow metaCols sjk ssk d)).1
      = .dict (dictSet (dictSet (dictSet d "type"
          (rowGet (buildRow metaCols sjk ssk d) "Data Type"))
          "nullable" (.bool (coerceNullable (rowGet (buildRow metaCols sjk ssk d) "Nullable"))))
          "metadata" (.dict (metaColsStep cols (buildRow metaCols sjk ssk d)
            (isPkStep cols (buildRow metaCols sjk ssk d)
              (commentStep cols (buildRow metaCols sjk ssk d)
                (targetNameStep cols (buildRow metaCols sjk ssk d)
                  (sourceNameStep cols (buildRow metaCols sjk ssk d) m))))))) := by
    simp only [buildField, hfn, hmap, hhas, if_true, hd2meta]
  exact ⟨_, _, hbf, dictGet_dictSet_self _ "metadata" _, hm5⟩

theorem filterMap_dict_index (g : List (String × PyVal) → Row) :
    ∀ l : List PyVal, (∀ f ∈ l, ∃ d, f = PyVal.dict d) →
      (l.filterMap (fun f => match f with
        | .dict d => some (g d)
        | _ => Option.none)).length = l.length ∧
      ∀ (i : Nat) (d : List (String × PyVal)), l[i]? = some (PyVal.dict d) →
        (l.filterMap (fun f => match f with
          | .dict d => some (g d)
          | _ => Option.none))[i]? = some (g d)
  | [] => fun _ => ⟨rfl, fun i d hi => by simp at hi⟩
  | f :: l => fun h => by
    obtain ⟨d0, rfl⟩ := h f (by simp)
    have ih := filterMap_dict_index g l (fun f' hf' => h f' (by simp [hf']))
    refine ⟨by simp [List.filterMap_cons, ih.1], ?_⟩
    intro i d hi
    cases i with
    | zero =>
      simp only [List.getElem?_cons_zero, Option.some.injEq, PyVal.dict.injEq] at hi
      subst hi
      simp [List.filterMap_cons]
    | succ i' =>
      simp only [List.getElem?_cons_succ] at hi
      simpa [List.filterMap_cons] using ih.2 i' d hi

theorem pairwise_fieldTn_ne (F : List PyVal) (hdist : (F.map fieldTn).Pairwise (· ≠ ·))
    (i j : Nat) (hij : i ≠ j) (di dj : List (String × PyVal))
    (hi : F[i]? = some (.dict di)) (hj : F[j]? = some (.dict dj)) :
    fieldMapKey di ≠ fieldMapKey dj := by
  obtain ⟨hiLt, hiv⟩ := List.getElem?_eq_some.mp hi
  obtain ⟨hjLt, hjv⟩ := List.getElem?_eq_some.mp hj
  have hPW := List.pairwise_iff_getElem.mp hdist
  have hil : i < (F.map fieldTn).length := by simpa using hiLt
  have hjl : j < (F.map fieldTn).length := by simpa using hjLt
  have hmi : (F.map fieldTn)[i] = fieldMapKey di := by
    simp [List.getElem_map, hiv, fieldTn]
  have hmj : (F.map fieldTn)[j] = fieldMapKey dj := by
    simp [List.getElem_map, hjv, fieldTn]
  rcases Nat.lt_or_ge i j with hlt | hge
  · have := hPW i j hil hjl hlt
    rw [hmi, hmj] at this
    exact this
  · have hlt : j < i := by omega
    have := hPW j i hjl hil hlt
    rw [hmi, hmj] at this
    exact fun he => this he.symm

/-- C1 counterexample: the round-trip is NOT lossless for every non-empty
field sequence.  A field whose metadata lacks `target_name` produces a grid
row with Target Name `""`, which fails to match the original in
`original_fields_map` (keyed there under the field's `name`, `"x"`), so the
rebuilt field starts from scratch and the non-reserved metadata key
`"extra"` (value `""`, hence not written back from its grid cell) is
dropped, although the claim requires it to survive with its value. -/
theorem metadata_passthrough_counterexample :
    ([PyVal.dict [("name", .str "x"), ("metadata", .dict [("extra", .str "")])]] ≠ []) ∧
    dictGet [("extra", PyVal.str "")] "extra" = some (.str "") ∧
    reservedMetaKeys.contains "extra" = false ∧
    (dataframe_to_schema
        (schema_to_dataframe
          [PyVal.dict [("name", .str "x"), ("metadata", .dict [("extra", .str "")])]] [] [] [])
        [PyVal.dict [("name", .str "x"), ("metadata", .dict [("extra", .str "")])]]).1
      = .dict [("fields", .list [.dict [("name", .str ""), ("type", .str ""),
          ("nullable", .bool true), ("metadata", .dict [("is_primary_key", .bool false)])]])] ∧
    dictGet [("is_primary_key", PyVal.bool false)] "extra" = Option.none :=
  ⟨by decide, rfl, rfl, rfl, rfl⟩

/-- C1 (amended): for every non-empty field sequence whose fields are
objects with dict metadata containing a `target_name`, with pairwise
distinct map keys, and whose metadata keys do not contain the substring
`"metadata."` (the column-name round-trip uses `col.replace("metadata.",
"")`, which replaces **every** occurrence), converting to a grid and back
preserves every non-reserved metadata key of every field with its original
value.  Without the matching hypotheses a field can fail to match its
original and empty-valued keys are dropped (see the counterexample). -/
theorem metadata_passthrough_roundtrip
    (F : List PyVal) (pk sjk ssk : List String)
    (hne : F ≠ [])
    (hwf : ∀ f ∈ F, ∃ d m tn, f = PyVal.dict d ∧ dictGet d "metadata" = some (.dict m) ∧
        dictGet m "target_name" = some tn)
    (hdist : (F.map fieldTn).Pairwise (· ≠ ·))
    (hsub : ∀ f ∈ F, ∀ d, f = PyVal.dict d →
        ∀ p ∈ (metaOf d).map Prod.fst, pyContains p "metadata." = false) :
    ∃ fs : List PyVal,
      (dataframe_to_schema (schema_to_dataframe F pk sjk ssk) F).1
        = .dict [("fields", .list fs)] ∧
      fs.length = F.length ∧
      (∀ (i : Nat) (d m : List (String × PyVal)) (k : String),
        F[i]? = some (PyVal.dict d) → dictGet d "metadata" = some (.dict m) →
        k ∈ m.map Prod.fst → reservedMetaKeys.contains k = false →
        ∃ d' m', fs[i]? = some (PyVal.dict d') ∧ dictGet d' "metadata" = some (.dict m') ∧
          dictGet m' k = dictGet m k) := by
  have hFne : F.isEmpty = false := by
    cases F with
    | nil => exact absurd rfl hne
    | cons f t => rfl
  have hdf : schema_to_dataframe F pk sjk ssk
      = mkDFrame (F.filterMap (fun f => match f with
          | .dict d => some (buildRow
              ((allMetadataKeys F).filter (fun k => !reservedMetaKeys.contains k)) sjk ssk d)
          | _ => Option.none)) := by
    simp [schema_to_dataframe, hFne]
  set metaCols := (allMetadataKeys F).filter (fun k => !reservedMetaKeys.contains k)
    with hmcdef
  set rows := F.filterMap (fun f => match f with
      | .dict d => some (buildRow metaCols sjk ssk d)
      | _ => Option.none) with hrowsdef
  have hidx := filterMap_dict_index (buildRow metaCols sjk ssk) F
    (fun f hf => (hwf f hf).elim fun d hd => ⟨d, hd.choose_spec.choose_spec.1⟩)
  have hlen : rows.length = F.length := hidx.1
  have hrowsne : rows ≠ [] := by
    intro h0
    rw [h0] at hlen
    cases F with
    | nil => exact absurd rfl hne
    | cons f t => simp at hlen
  have hcolseq : colsUnion rows
      = ["Data Type", "Nullable", "Comment", "Source Name", "Target Name",
         "Is Primary Key", "Is SCD Join Key", "Is SCD Sequence Key"]
        ++ metaCols.map (fun a => "metadata." ++ a) := by
    apply colsUnion_const _ rows ?_ hrowsne
    intro r hr
    obtain ⟨f, hf, hfr⟩ := List.mem_filterMap.mp hr
    cases f with
    | dict d =>
      simp only [Option.some.injEq] at hfr
      rw [← hfr]
      exact rowKeys_buildRow metaCols sjk ssk d
    | none => simp at hfr
    | bool b => simp at hfr
    | int n => simp at hfr
    | float me e => simp at hfr
    | str s => simp at hfr
    | list xs => simp at hfr
  have hout : (dataframe_to_schema (schema_to_dataframe F pk sjk ssk) F).1
      = .dict [("fields",
          .list (rows.map (fun r => (buildField (mkOriginalMap F) (colsUnion rows) r).1)))] := by
    rw [hdf]
    show PyVal.dict [("fields", .list (rowsLoop (mkOriginalMap F) (colsUnion rows) rows).1)]
      = _
    rw [rowsLoop_fields]
  refine ⟨_, hout, by simp [hlen], ?_⟩
  intro i d m k hFi hm hkmem hkres
  have hmem : (PyVal.dict d) ∈ F := List.mem_iff_getElem?.mpr ⟨i, hFi⟩
  obtain ⟨d₂, m₂, tn, heq, hm₂, htn₂⟩ := hwf _ hmem
  injection heq with h'
  rw [← h'] at hm₂
  rw [hm] at hm₂
  injection hm₂ with h2
  injection h2 with h3
  rw [← h3] at htn₂
  have htnF : fieldMapKey d = some tn := by
    simp [fieldMapKey, hm, htn₂]
  have hmap : pmapGet (mkOriginalMap F) tn = some d := by
    unfold mkOriginalMap
    apply pmapGet_mkOriginalMap_found F [] i d tn hFi htnF
    intro j hj dj hdj
    have hne' := pairwise_fieldTn_ne F hdist j i hj dj d hdj hFi
    intro he
    exact hne' (he.trans htnF.symm)
  have hsubMC : ∀ k' ∈ metaCols, pyContains k' "metadata." = false := by
    intro k' hk'
    have hk'' : k' ∈ allMetadataKeys F := (List.mem_filter.mp (hmcdef ▸ hk')).1
    obtain ⟨d₃, hd₃F, hd₃k⟩ := mem_allMetadataKeys F k' hk''
    exact hsub _ hd₃F d₃ rfl k' hd₃k
  have hkres' : k ≠ "comment" ∧ k ≠ "source_name" ∧ k ≠ "target_name" ∧
      k ≠ "is_primary_key" := by
    have : ¬ (k = "comment" ∨ k = "source_name" ∨ k = "target_name" ∨
        k = "is_primary_key") := by
      simpa [reservedMetaKeys] using hkres
    push_neg at this
    exact this
  obtain ⟨d', m', hbf, hd'm, hpres⟩ := buildField_meta_preserved (mkOriginalMap F)
    (colsUnion rows) metaCols sjk ssk d m tn k hcolseq hm htn₂ hmap hsubMC
    hkres'.1 hkres'.2.1 hkres'.2.2.1 hkres'.2.2.2
  refine ⟨d', m', ?_, hd'm, hpres⟩
  have hrow := hidx.2 i d hFi
  rw [List.getElem?_map]
  rw [← hrowsdef] at hrow
  rw [hrow]
  simp [hbf]

/-- Witness for C1 at a one-field sequence with `target_name` present and
two unexposed metadata keys, one of them empty-valued. -/
theorem metadata_passthrough_roundtrip_witness :
    ∃ fs : List PyVal,
      (dataframe_to_schema
        (schema_to_dataframe
          [PyVal.dict [("name", .str "x"), ("type", .str "string"),
            ("metadata", .dict [("target_name", .str "t"), ("extra", .str ""),
                                ("ww", .str "v")])]] [] [] [])
        [PyVal.dict [("name", .str "x"), ("type", .str "string"),
          ("metadata", .dict [("target_name", .str "t"), ("extra", .str ""),
                              ("ww", .str "v")])]]).1
        = .dict [("fields", .list fs)] ∧
      fs.length = 1 ∧
      (∃ d' m', fs[0]? = some (PyVal.dict d') ∧ dictGet d' "metadata" = some (.dict m') ∧
        dictGet m' "extra" = some (.str "")) ∧
      (∃ d' m', fs[0]? = some (PyVal.dict d') ∧ dictGet d' "metadata" = some (.dict m') ∧
        dictGet m' "ww" = some (.str "v")) := by
  obtain ⟨fs, hout, hlen, hpres⟩ := metadata_passthrough_roundtrip
    [PyVal.dict [("name", .str "x"), ("type", .str "string"),
      ("metadata", .dict [("target_name", .str "t"), ("extra", .str ""), ("ww", .str "v")])]]
    [] [] [] (by decide)
    (by
      intro f hf
      simp only [List.mem_singleton] at hf
      subst hf
      exact ⟨_, _, .str "t", rfl, rfl, rfl⟩)
    (by decide)
    (by
      intro f hf d hd
      simp only [List.mem_singleton] at hf
      subst hf
      cases hd
      decide)
  obtain ⟨d1, m1, hf1, hm1, hp1⟩ := hpres 0 _ _ "extra" rfl rfl (by decide) (by decide)
  obtain ⟨d2, m2, hf2, hm2, hp2⟩ := hpres 0 _ _ "ww" rfl rfl (by decide) (by decide)
  exact ⟨fs, hout, by simpa using hlen, ⟨d1, m1, hf1, hm1, hp1.trans rfl⟩,
    ⟨d2, m2, hf2, hm2, hp2.trans rfl⟩⟩
